import Mathlib

/-!
Verification development for the `toolkit.fileformat` module: a shallow
embedding of the FileFormat processing pipeline (column processors, the
report data model, structural checks, repeat-column aggregation, row
validators, and the accept/reject decision), together with theorems that
settle the specification claims about it.

Modelling conventions, fixed once and used consistently below:

* Python cell values are modelled by `Value`.  The three distinct Python
  null-ish objects that the source distinguishes (`None`, `np.nan`,
  `pd.NA`) are separate constructors, because the source treats them
  differently (e.g. `OptionsProcessor` skips `None` and `""` but not
  `np.nan`; `RegexProcessor` skips `None` and `np.nan`).
* Machine floats are modelled as exact rationals (`Rat`); float32
  rounding is out of scope and never load-bearing for a claim.
* A pandas `DataFrame` is modelled by `Df`: an explicit list of row
  labels (`index`) plus labelled columns of equal length, as produced by
  `FileFormat.read_csv` (string cells, `RangeIndex`).  A `Series` is a
  name plus `(row label, value)` pairs.
* Python exceptions that the source does not catch locally are modelled
  with `Sum (String × _) _`: the `inl` payload carries the exception
  text and the errors appended to the (mutable) report before the raise,
  mirroring that `FileFormatReport.errors` retains entries appended
  before an exception escapes `_process`.
* `datetime.strptime` is modelled after CPython `_strptime` for the
  directives `%Y %y %m %d %H %M %S` that `convert_dateformat` emits:
  two-digit-preferred numeric fields with the same ranges, exact
  four-digit years, literal matching elsewhere, and calendar validation
  of the day of month.
* Python `int(...)` / `float(...)` string parsing is modelled by
  `parseInt` / `parseFloat` (sign, digits, decimal point, exponent;
  `parseFloat` also accepts the case-insensitive `nan`/`inf`/`infinity`
  spellings that `float()` parses); underscore separators are out of
  scope.
-/

set_option autoImplicit false

namespace Toolkit

/-- A single-quote character, used to render Python `repr` of strings. -/
def sq : String := String.singleton (Char.ofNat 39)

/-- A scalar Python cell value.  The three distinct null-ish objects
(`None`, `np.nan`, `pd.NA`) are separate constructors. -/
inductive Atom where
  | pynone
  | nan
  | na
  | str (s : String)
  | intv (n : Int)
  | floatv (q : Rat)
  | inf (neg : Bool)
  | dtv (year month day hour minute second : Nat)
deriving DecidableEq

/-- A Python cell value flowing through the pipeline: a scalar, or a
list of scalars (the row-wise lists built for a repeat column; the
datatype conversion at the end of every processor chain only ever emits
scalars, so list nesting never occurs in the modelled code paths). -/
inductive Value where
  | atom (a : Atom)
  | listv (vs : List Atom)
deriving DecidableEq

@[match_pattern] abbrev Value.pynone : Value := .atom .pynone
@[match_pattern] abbrev Value.nan : Value := .atom .nan
@[match_pattern] abbrev Value.na : Value := .atom .na
@[match_pattern] abbrev Value.str (s : String) : Value := .atom (.str s)
@[match_pattern] abbrev Value.intv (n : Int) : Value := .atom (.intv n)
@[match_pattern] abbrev Value.floatv (q : Rat) : Value := .atom (.floatv q)
@[match_pattern] abbrev Value.inf (neg : Bool) : Value := .atom (.inf neg)
@[match_pattern] abbrev Value.dtv (y mo d h mi s : Nat) : Value :=
  .atom (.dtv y mo d h mi s)

/-- Decimal digits of a natural number, most significant first; always
nonempty.  Structural recursion on a fuel argument (`n + 1` always
suffices, as the value shrinks ten-fold per step), so that the digits
compute by kernel reduction. -/
def natCharsAux : Nat → Nat → List Char
  | 0, _ => []
  | fuel + 1, n =>
      if n < 10 then [Char.ofNat (48 + n)]
      else natCharsAux fuel (n / 10) ++ [Char.ofNat (48 + n % 10)]

def natChars (n : Nat) : List Char := natCharsAux (n + 1) n

/-- Decimal rendering of a natural number (model of Python `str(int)`
for nonnegative values). -/
def natStr (n : Nat) : String := String.mk (natChars n)

/-- Decimal rendering of an integer (model of Python `str(int)`). -/
def intStr (n : Int) : String :=
  if n < 0 then "-" ++ natStr n.natAbs else natStr n.natAbs

/-- Approximate rendering of a rational, standing in for Python
`str(float)`; only used inside human-readable messages. -/
def ratStr (q : Rat) : String :=
  if q.den = 1 then intStr q.num ++ ".0"
  else intStr q.num ++ "/" ++ natStr q.den

/-- Zero-padded decimal rendering with a minimum width. -/
def padNum (width n : Nat) : String :=
  let s := natStr n
  if s.length < width then String.mk (List.replicate (width - s.length) (Char.ofNat 48)) ++ s
  else s

/-- Model of Python `repr` for scalar cell values. -/
def atomRepr : Atom → String
  | .pynone => "None"
  | .nan => "nan"
  | .na => "<NA>"
  | .str s => sq ++ s ++ sq
  | .intv n => intStr n
  | .floatv q => ratStr q
  | .inf b => if b then "-inf" else "inf"
  | .dtv y mo d h mi s =>
      "datetime.datetime(" ++ String.intercalate ", "
        [natStr y, natStr mo, natStr d, natStr h, natStr mi, natStr s] ++ ")"

/-- Model of Python `repr` for cell values, as used by the
`"{!r}".format(...)` message templates in the source. -/
def pyRepr : Value → String
  | .atom a => atomRepr a
  | .listv vs => "[" ++ String.intercalate ", " (vs.map atomRepr) ++ "]"

/-- Model of Python truthiness (`bool(...)`) for cell values.  `bool`
of `pd.NA` raises in Python; the call sites below test for `na`
explicitly before using truthiness wherever the source can reach it. -/
def pyTruthy : Value → Bool
  | .pynone => false
  | .nan => true
  | .na => true
  | .str s => decide (s ≠ "")
  | .intv n => decide (n ≠ 0)
  | .floatv q => decide (q ≠ 0)
  | .inf _ => true
  | .dtv _ _ _ _ _ _ => true
  | .listv vs => decide (vs ≠ [])

/-- Model of Python `str(...)` applied to a cell value (the STRING
datatype conversion; `str` never fails). -/
def pyStr : Value → String
  | .str s => s
  | .intv n => intStr n
  | .floatv q => ratStr q
  | .inf b => if b then "-inf" else "inf"
  | .nan => "nan"
  | .pynone => "None"
  | .na => "<NA>"
  | .dtv y mo d h mi s =>
      padNum 4 y ++ "-" ++ padNum 2 mo ++ "-" ++ padNum 2 d ++ " " ++
      padNum 2 h ++ ":" ++ padNum 2 mi ++ ":" ++ padNum 2 s
  | .listv vs => pyRepr (.listv vs)

/-! ### Date format translation and strptime -/

/-- Scanner for `DatatypeProcessor.convert_dateformat`: replaces the
tokens `HH`, `:MM`, `SS`, `YYYY`, `YY`, `MM`, `DD` (tried in exactly the
alternation order of the source regex at each position) by the
corresponding strptime directives. -/
def convertDateformatChars : List Char → List Char
  | 'H' :: 'H' :: r => '%' :: 'H' :: convertDateformatChars r
  | ':' :: 'M' :: 'M' :: r => ':' :: '%' :: 'M' :: convertDateformatChars r
  | 'S' :: 'S' :: r => '%' :: 'S' :: convertDateformatChars r
  | 'Y' :: 'Y' :: 'Y' :: 'Y' :: r => '%' :: 'Y' :: convertDateformatChars r
  | 'Y' :: 'Y' :: r => '%' :: 'y' :: convertDateformatChars r
  | 'M' :: 'M' :: r => '%' :: 'm' :: convertDateformatChars r
  | 'D' :: 'D' :: r => '%' :: 'd' :: convertDateformatChars r
  | c :: r => c :: convertDateformatChars r
  | [] => []

/-- `DatatypeProcessor.convert_dateformat`: translate the `YYYY/MM/DD`
style source pattern into a strptime-style pattern. -/
def convert_dateformat (s : String) : String :=
  String.mk (convertDateformatChars s.toList)

/-- Tokens of a strptime format string. -/
inductive FmtTok where
  | lit (c : Char)
  | dY | dy | dm | dd | dH | dM | dS
deriving DecidableEq

/-- Parse a strptime format string into tokens; `none` models the
`ValueError` Python raises on an unsupported directive. -/
def parseFmt : List Char → Option (List FmtTok)
  | [] => some []
  | '%' :: c :: rest =>
      let tok? : Option FmtTok :=
        if c = 'Y' then some .dY
        else if c = 'y' then some .dy
        else if c = 'm' then some .dm
        else if c = 'd' then some .dd
        else if c = 'H' then some .dH
        else if c = 'M' then some .dM
        else if c = 'S' then some .dS
        else if c = '%' then some (.lit '%')
        else none
      match tok?, parseFmt rest with
      | some t, some ts => some (t :: ts)
      | _, _ => none
  | ['%'] => none
  | c :: rest =>
      match parseFmt rest with
      | some ts => some (.lit c :: ts)
      | none => none

/-- Fields accumulated while matching a strptime pattern, with the
CPython defaults. -/
structure DTFields where
  year : Nat := 1900
  month : Nat := 1
  day : Nat := 1
  hour : Nat := 0
  minute : Nat := 0
  second : Nat := 0
deriving DecidableEq

def isDigitChar (c : Char) : Bool := 48 ≤ c.toNat && c.toNat ≤ 57

/-- Split exactly `w` leading digits off the character list, returning
their value and the remainder. -/
def splitDigits (w : Nat) (s : List Char) : Option (Nat × List Char) :=
  let pre := s.take w
  if pre.length = w && pre.all isDigitChar then
    some (pre.foldl (fun a c => a * 10 + (c.toNat - 48)) 0, s.drop w)
  else none

/-- Store a matched numeric field. -/
def setField : FmtTok → Nat → DTFields → DTFields
  | .dY, v, f => { f with year := v }
  | .dy, v, f => { f with year := if v ≤ 68 then 2000 + v else 1900 + v }
  | .dm, v, f => { f with month := v }
  | .dd, v, f => { f with day := v }
  | .dH, v, f => { f with hour := v }
  | .dM, v, f => { f with minute := v }
  | .dS, v, f => { f with second := v }
  | .lit _, _, f => f

/-- Admissible widths and value range of each numeric directive,
mirroring the CPython `_strptime` regexes (`%Y` is exactly four digits;
the two-digit fields prefer two digits, falling back to one). -/
def tokWidths : FmtTok → List (Nat × Nat × Nat)
  | .dY => [(4, 0, 9999)]
  | .dy => [(2, 0, 99)]
  | .dm => [(2, 1, 12), (1, 1, 9)]
  | .dd => [(2, 1, 31), (1, 1, 9)]
  | .dH => [(2, 0, 23), (1, 0, 9)]
  | .dM => [(2, 0, 59), (1, 0, 9)]
  | .dS => [(2, 0, 61), (1, 0, 9)]
  | .lit _ => []

/-- Match a token list against input characters, trying the wider
numeric form first (with backtracking), as the CPython regex does. -/
def matchToks : List FmtTok → List Char → DTFields → Option DTFields
  | [], s, f => if s.isEmpty then some f else none
  | .lit c :: ts, s, f =>
      match s with
      | [] => none
      | d :: rest => if c = d then matchToks ts rest f else none
  | t :: ts, s, f =>
      (tokWidths t).foldr
        (fun (wlh : Nat × Nat × Nat) acc =>
          let tryOne : Option DTFields :=
            match splitDigits wlh.1 s with
            | some (v, rest) =>
                if wlh.2.1 ≤ v && v ≤ wlh.2.2 then matchToks ts rest (setField t v f)
                else none
            | none => none
          match tryOne with
          | some r => some r
          | none => acc)
        none

/-- Days in a month, Gregorian calendar. -/
def daysInMonth (y m : Nat) : Nat :=
  if m = 2 then
    if y % 4 = 0 && (y % 100 ≠ 0 || y % 400 = 0) then 29 else 28
  else if m = 4 || m = 6 || m = 9 || m = 11 then 30
  else 31

/-- Model of `datetime.datetime.strptime`; `none` models `ValueError`
(no match, or invalid calendar date). -/
def strptime (s fmt : String) : Option DTFields :=
  match parseFmt fmt.toList with
  | none => none
  | some toks =>
      match matchToks toks s.toList {} with
      | none => none
      | some f =>
          if 1 ≤ f.month && f.month ≤ 12 && 1 ≤ f.day && f.day ≤ daysInMonth f.year f.month
          then some f else none

/-- `date().isoformat()` of a parsed timestamp. -/
def isoDate (f : DTFields) : String :=
  padNum 4 f.year ++ "-" ++ padNum 2 f.month ++ "-" ++ padNum 2 f.day

/-! ### Numeric string parsing (models of `int(...)` and `float(...)`) -/

/-- Value of a nonempty digit run. -/
def digitsVal (cs : List Char) : Nat :=
  cs.foldl (fun a c => a * 10 + (c.toNat - 48)) 0

/-- Model of Python `int(string)`: optional surrounding spaces, optional
sign, then one or more digits. -/
def parseInt (s : String) : Option Int :=
  let cs := s.toList.dropWhile (· = ' ')
  let cs := (cs.reverse.dropWhile (· = ' ')).reverse
  let (neg, body) :=
    match cs with
    | '-' :: r => (true, r)
    | '+' :: r => (false, r)
    | _ => (false, cs)
  if body ≠ [] && body.all isDigitChar then
    let n : Int := Int.ofNat (digitsVal body)
    some (if neg then -n else n)
  else none

/-- Mantissa/exponent split of a float literal body: `digits [. digits]`
or `. digits`, then optional `e`/`E` exponent. -/
def parseFloatBody (cs : List Char) : Option Rat :=
  let ipart := cs.takeWhile isDigitChar
  let rest := cs.dropWhile isDigitChar
  let (fpart, rest2) :=
    match rest with
    | '.' :: r => (r.takeWhile isDigitChar, r.dropWhile isDigitChar)
    | _ => ([], rest)
  let hasDot := match rest with | '.' :: _ => true | _ => false
  if ipart = [] && fpart = [] then none
  else
    let mantissa : Rat :=
      (Int.ofNat (digitsVal (ipart ++ fpart)) : Rat) / ((10 : Rat) ^ fpart.length)
    match rest2 with
    | [] => some mantissa
    | e :: r =>
        if (e = 'e' || e = 'E') && (hasDot || ipart ≠ [] || fpart ≠ []) then
          let (eneg, ebody) :=
            match r with
            | '-' :: rr => (true, rr)
            | '+' :: rr => (false, rr)
            | _ => (false, r)
          if ebody ≠ [] && ebody.all isDigitChar then
            let ex := digitsVal ebody
            some (if eneg then mantissa / ((10 : Rat) ^ ex) else mantissa * ((10 : Rat) ^ ex))
          else none
        else none

/-- ASCII lowercasing, for the case-insensitive special float
spellings. -/
def asciiLower (c : Char) : Char :=
  if 65 ≤ c.toNat ∧ c.toNat ≤ 90 then Char.ofNat (c.toNat + 32) else c

/-- Model of Python `float(string)`: optional surrounding spaces and
sign, then either a finite decimal literal or one of the
case-insensitive IEEE special spellings `nan`, `inf`, `infinity`
(`float("nan")` succeeds and yields a NaN; the sign is ignored for
NaN). -/
def parseFloat (s : String) : Option Atom :=
  let cs := s.toList.dropWhile (· = ' ')
  let cs := (cs.reverse.dropWhile (· = ' ')).reverse
  let (neg, body) :=
    match cs with
    | '-' :: r => (true, r)
    | '+' :: r => (false, r)
    | _ => (false, cs)
  let lbody := body.map asciiLower
  if lbody = ['n', 'a', 'n'] then some .nan
  else if lbody = ['i', 'n', 'f'] ∨ lbody = ['i', 'n', 'f', 'i', 'n', 'i', 't', 'y'] then
    some (.inf neg)
  else
    match parseFloatBody body with
    | some q => some (.floatv (if neg then -q else q))
    | none => none

/-- Truncation toward zero, as Python `int(float)` does. -/
def ratTrunc (q : Rat) : Int := q.num.tdiv q.den

/-! ### Error and report data model (`FileStatus`, `FileErrorLevel`,
`FileFormatError`, `FileFormatReport`) -/

inductive FileStatus where
  | ACCEPTED
  | REJECTED
deriving DecidableEq

inductive FileErrorLevel where
  | ROW
  | FILE
deriving DecidableEq

/-- One violation, mirroring the `FileFormatError` dataclass: the
row/column/value fields are only populated for ROW-level errors. -/
structure FileFormatError where
  error_level : FileErrorLevel
  error_code : String
  error_message : String
  row_index : Option Nat := none
  column_name : Option String := none
  value : Option Value := none
deriving DecidableEq

/-- `FileFormatError` for a FILE-level problem. -/
def mkFileError (code msg : String) : FileFormatError :=
  { error_level := .FILE, error_code := code, error_message := msg }

/-- `FileFormatError` for a ROW-level problem. -/
def mkRowError (code msg : String) (i : Nat) (col : String) (v : Value) :
    FileFormatError :=
  { error_level := .ROW, error_code := code, error_message := msg,
    row_index := some i, column_name := some col, value := some v }

/-! ### Series and DataFrame -/

/-- A named pandas Series: `(row label, value)` pairs in positional
order, as traversed by `iteritems`. -/
structure Series where
  name : String
  items : List (Nat × Value)
deriving DecidableEq

def Series.values (s : Series) : List Value := s.items.map Prod.snd

/-- A pandas DataFrame: explicit row labels, and labelled columns each
holding one value per row. -/
structure Df where
  index : List Nat
  cols : List (String × List Value)
deriving DecidableEq

def Df.nrows (d : Df) : Nat := d.index.length

def Df.labels (d : Df) : List String := d.cols.map Prod.fst

/-- `df[label]`: the first column with the given label, as a Series
carrying the frame's row labels. -/
def Df.getSeries? (d : Df) (label : String) : Option Series :=
  (d.cols.find? (fun c => c.1 == label)).map
    (fun c => { name := label, items := d.index.zip c.2 })

/-- The raw value list of the first column with the given label. -/
def Df.getCol? (d : Df) (label : String) : Option (List Value) :=
  (d.cols.find? (fun c => c.1 == label)).map Prod.snd

/-- Column assignment `df[name] = values` for values already aligned
with the frame's index (the processed Series case: its index is the
frame's index, so label alignment is positional identity).  Overwrites
an existing column of that name in place, else appends. -/
def Df.setCol (d : Df) (nm : String) (vs : List Value) : Df :=
  if d.cols.any (fun c => c.1 == nm) then
    { d with cols := d.cols.map (fun c => if c.1 == nm then (nm, vs) else c) }
  else
    { d with cols := d.cols ++ [(nm, vs)] }

/-- Column assignment of a freshly built `pd.Series(list)` (RangeIndex
`0..len-1`): pandas aligns by label, so row label `L` receives the
list's element `L` when it exists and `NaN` otherwise. -/
def Df.setColAligned (d : Df) (nm : String) (vs : List Value) : Df :=
  d.setCol nm (d.index.map (fun L => vs.getD L .nan))

/-- Rows of a frame as `iterrows` yields them: `(row label, cells)`
with cells as `(column name, value)` pairs. -/
def Df.rows (d : Df) : List (Nat × List (String × Value)) :=
  d.index.enum.map (fun pL =>
    (pL.2, d.cols.map (fun c => (c.1, c.2.getD pL.1 .nan))))

/-- Rows of the frame whose label satisfies `keep`, in order (the
boolean-mask selection `df2[~df.index.isin(rejected_rows)]`). -/
def Df.filterRows (d : Df) (keep : Nat → Bool) : Df :=
  { index := d.index.filter keep,
    cols := d.cols.map (fun c =>
      (c.1, ((d.index.zip c.2).filter (fun p => keep p.1)).map Prod.snd)) }

/-- The report of one run (the `FileFormatReport` dataclass), with the
single error list of a run inlined as a value.  The object-aliasing
behaviour of `dataclasses.replace` plus the shared mutable `errors`
list — which claim C9 is about — is modelled separately by
`ReportObj` and `ErrHeap` below. -/
structure FileFormatReport where
  status : FileStatus := .ACCEPTED
  filename : Option String := none
  df : Option Df := none
  errors : List FileFormatError := []
  total_rows : Nat := 0
deriving DecidableEq

/-! ### Datatypes, processors, column formats -/

inductive Datatype where
  | INTEGER
  | FLOAT
  | STRING
  | DATE
  | DATETIME
deriving DecidableEq

/-- `Datatype(value)` lookup by wire name; `none` models the
`ValueError` raised for an unknown datatype name. -/
def Datatype.ofWire? : String → Option Datatype
  | "integer" => some .INTEGER
  | "float" => some .FLOAT
  | "string" => some .STRING
  | "date" => some .DATE
  | "datetime" => some .DATETIME
  | _ => none

/-- The closed set of column processors, tagged with their construction
arguments (the source classes `UniquenessProcessor`, `RegexProcessor`,
`OptionsProcessor`, `RequiredProcessor`, `DefaultsProcessor`,
`DatatypeProcessor`). -/
inductive Processor where
  | uniqueness
  | regexP (regex : String)
  | optionsP (options : List String)
  | requiredP
  | defaultsP (default : Value) (missing_values : Option (List String))
  | datatypeP (datatype : Datatype) (dateformat : Option String)
deriving DecidableEq

/-- The declarative spec of one output column (the `ColumnFormat`
dataclass).  `default`, when absent in the defining document, is the
dataclass default `None`. -/
structure ColumnFormat where
  name : String
  label : String
  datatype : Datatype
  description : Option String := none
  required : Bool := true
  default : Value := .pynone
  regex : Option String := none
  transform : Option String := none
  dateformat : Option String := none
  unique : Bool := false
  options : Option (List String) := none
  missing_values : Option (List String) := none
  params : List (String × String) := []
deriving DecidableEq

/-- `ColumnFormat.get_processors`: the ordered processor chain derived
from the column's flags.  The regex condition matches the source's
truthiness test `self.regex` (so the empty pattern counts as unset),
and the options condition matches `self.options is not None`. -/
def ColumnFormat.get_processors (cf : ColumnFormat) : List Processor :=
  (if cf.unique then [Processor.uniqueness] else [])
  ++ (match cf.regex with
      | some r => if cf.datatype = Datatype.STRING ∧ r ≠ "" then [Processor.regexP r] else []
      | none => [])
  ++ (match cf.options with
      | some opts => [Processor.optionsP opts]
      | none => [])
  ++ (if cf.required then [Processor.requiredP]
      else [Processor.defaultsP cf.default cf.missing_values])
  ++ [Processor.datatypeP cf.datatype cf.dateformat]

/-! ### The individual processors

Each processor takes the column and returns the row errors it appends
to the report, in the order it appends them; processors that can hit an
uncaught Python exception return `Sum (String × List FileFormatError) _`
whose `inl` payload is the exception text plus the errors appended
before the raise. -/

/-- Values collapsed by pandas hashing when looking for duplicates
(`None`/`NaN`-likes hash together in object columns). -/
def dupNullish : Value → Bool
  | .pynone => true
  | .nan => true
  | .na => true
  | _ => false

def dupEq (a b : Value) : Bool := (dupNullish a && dupNullish b) || a == b

/-- `UniquenessProcessor.process`: flag every value equal to an earlier
one (`column.duplicated()` keeps the first occurrence unflagged). -/
def UniquenessProcessor.go (colname : String) (seen : List Value) :
    List (Nat × Value) → List FileFormatError
  | [] => []
  | (i, v) :: rest =>
      (if seen.any (dupEq v) then
        [mkRowError "duplicate_value" ("Found duplicate value: " ++ pyRepr v) i colname v]
      else []) ++ UniquenessProcessor.go colname (v :: seen) rest

def UniquenessProcessor.process (s : Series) : List FileFormatError :=
  UniquenessProcessor.go s.name [] s.items

/-- Generic per-cell scan shared by the processors that iterate
`column.iteritems()`: `f` returns the errors appended for one cell, or
`inl` with the text of an uncaught exception.  Errors accumulate in
iteration order; a raise keeps the errors of cells already visited. -/
def cellScan (f : Nat × Value → Sum String (List FileFormatError)) :
    List (Nat × Value) → Sum (String × List FileFormatError) (List FileFormatError)
  | [] => .inr []
  | iv :: rest =>
      match f iv with
      | .inl msg => .inl (msg, [])
      | .inr here =>
          match cellScan f rest with
          | .inl (msg, es) => .inl (msg, here ++ es)
          | .inr es => .inr (here ++ es)

/-- Loop body of `RegexProcessor.process`: skip `None`/`NaN`; report a
value not matching at the start of the pattern (`m` is the
regex-matching oracle abstracting Python `re.match` truthiness);
`rx.match` on a non-string raises `TypeError` (uncaught). -/
def regexCell (m : String → String → Bool) (regex colname : String)
    (iv : Nat × Value) : Sum String (List FileFormatError) :=
  match iv.2 with
  | .pynone => .inr []
  | .nan => .inr []
  | .str sv =>
      .inr (if m regex sv then []
        else [mkRowError "invalid_pattern"
          ("The value is not matching the pattern " ++ regex ++ ": " ++ pyRepr iv.2)
          iv.1 colname iv.2])
  | _ => .inl "expected string or bytes-like object"

def RegexProcessor.process (m : String → String → Bool) (regex : String) (s : Series) :
    Sum (String × List FileFormatError) (List FileFormatError) :=
  cellScan (regexCell m regex s.name) s.items

/-- Membership of a cell in the allowed options (`value not in
self.options` on a list of strings: Python `in` finds a match only for
equal strings; `NaN` equals nothing). -/
def optionsMember (v : Value) (options : List String) : Bool :=
  match v with
  | .str s => options.any (fun o => o == s)
  | _ => false

/-- Loop body of `OptionsProcessor.process`: skip `None` and `""` (the
source's `value is None or value == ""` test — note `NaN` is *not*
skipped); report non-members.  Comparing `pd.NA` raises `TypeError`
when the comparison result is used as a boolean. -/
def optionsCell (options : List String) (colname : String) (iv : Nat × Value) :
    Sum String (List FileFormatError) :=
  if iv.2 == Value.pynone || iv.2 == Value.str "" then .inr []
  else if iv.2 == Value.na then .inl "boolean value of NA is ambiguous"
  else
    .inr (if optionsMember iv.2 options then []
      else [mkRowError "invalid_value"
        ("The value is not one of the allowed options: " ++ pyRepr iv.2) iv.1 colname iv.2])

def OptionsProcessor.process (options : List String) (s : Series) :
    Sum (String × List FileFormatError) (List FileFormatError) :=
  cellScan (optionsCell options s.name) s.items

/-- The missing-value test shared by `RequiredProcessor`
(`column.isin(['', np.nan, None])`, with pandas also matching `pd.NA`
against the null-ish probes) and by the datatype conversion
(`value is pd.NA or value in [None, np.nan, '']`). -/
def isMissingCell : Value → Bool
  | .pynone => true
  | .nan => true
  | .na => true
  | .str s => decide (s = "")
  | _ => false

/-- `RequiredProcessor.process`: one `missing_value` error per missing
cell; the column is not altered. -/
def RequiredProcessor.process (s : Series) : List FileFormatError :=
  s.items.filterMap (fun iv =>
    if isMissingCell iv.2 then
      some (mkRowError "missing_value" ("Found missing value: " ++ pyRepr iv.2)
        iv.1 s.name iv.2)
    else none)

/-- `DefaultsProcessor.process`: replace `''`/`NaN`/`None` (pandas
`replace` also matches `pd.NA` for the null probes) and any extra
`missing_values` strings by the default value. -/
def DefaultsProcessor.matches (missing_values : Option (List String)) (v : Value) : Bool :=
  isMissingCell v ||
    (match missing_values with
     | some l => l.any (fun t => v == Value.str t)
     | none => false)

def DefaultsProcessor.process (default : Value) (missing_values : Option (List String))
    (s : Series) : Series :=
  { s with items := s.items.map (fun iv =>
      (iv.1, if DefaultsProcessor.matches missing_values iv.2 then default else iv.2)) }

/-! ### DatatypeProcessor -/

/-- The per-datatype missing marker written for empty/null input
(`missing_value` in the source's `datatype_info` table). -/
def missingMarker : Datatype → Value
  | .INTEGER => .na
  | .FLOAT => .nan
  | .STRING => .pynone
  | .DATETIME => .nan
  | .DATE => .pynone

/-- Outcome of converting one non-missing cell: success, a caught
`ValueError` (reported as a row error), or an uncaught exception. -/
inductive ConvResult where
  | ok (v : Value)
  | valueErr (msg : String)
  | typeErr (msg : String)
deriving DecidableEq

/-- Convert one cell (`convert` in `DatatypeProcessor.process`).
`fmtConv` is the already-translated dateformat
(`self.dateformat = dateformat and self.convert_dateformat(dateformat)`).
The DATE/DATETIME branches model `to_date`/`to_datetime`: the
`value and strptime(value, fmt)` short-circuit hands falsy values
straight through for DATETIME, and makes `to_date` blow up on them
(`.date()` on a non-datetime); `strptime` with a `None` format or a
non-string value raises `TypeError` (uncaught). -/
def convertAtom (dt : Datatype) (fmtConv : Option String) (v : Value) : ConvResult :=
  if isMissingCell v then .ok (missingMarker dt) else
  match dt with
  | .INTEGER =>
      match v with
      | .str s =>
          match parseInt s with
          | some n => .ok (.intv n)
          | none => .valueErr ("Invalid integer: " ++ pyRepr v)
      | .intv n => .ok (.intv n)
      | .floatv q => .ok (.intv (ratTrunc q))
      | .inf _ => .typeErr "cannot convert float infinity to integer"
      | _ => .typeErr "int() argument must be a string or a number"
  | .FLOAT =>
      match v with
      | .str s =>
          match parseFloat s with
          | some a => .ok (.atom a)
          | none => .valueErr ("Invalid number: " ++ pyRepr v)
      | .intv n => .ok (.floatv (n : Rat))
      | .floatv q => .ok (.floatv q)
      | .inf b => .ok (.inf b)
      | _ => .typeErr "float() argument must be a string or a number"
  | .STRING => .ok (.str (pyStr v))
  | .DATETIME =>
      if pyTruthy v then
        match v with
        | .str s =>
            match fmtConv with
            | none => .typeErr "strptime() argument 1 must be str, not None"
            | some f =>
                match strptime s f with
                | some flds =>
                    .ok (.dtv flds.year flds.month flds.day flds.hour flds.minute flds.second)
                | none => .valueErr ("Invalid timestamp: " ++ pyRepr v)
        | _ => .typeErr "strptime() argument 1 must be str"
      else .ok v
  | .DATE =>
      if pyTruthy v then
        match v with
        | .str s =>
            match fmtConv with
            | none => .typeErr "strptime() argument 1 must be str, not None"
            | some f =>
                match strptime s f with
                | some flds => .ok (.str (isoDate flds))
                | none => .valueErr ("Invalid date: " ++ pyRepr v)
        | _ => .typeErr "strptime() argument 1 must be str"
      else .typeErr "object has no attribute date"

/-- One step of the `convert` list comprehension in
`DatatypeProcessor.process`: the converted value for the cell plus the
errors appended (a caught `ValueError` is reported as an
`invalid-value` row error and the cell becomes the missing marker); an
uncaught exception is `inl`. -/
def datatypeCell (dt : Datatype) (fmtConv : Option String) (colname : String)
    (iv : Nat × Value) : Sum String (Value × List FileFormatError) :=
  match convertAtom dt fmtConv iv.2 with
  | .ok v2 => .inr (v2, [])
  | .valueErr msg =>
      .inr (missingMarker dt, [mkRowError "invalid-value" msg iv.1 colname iv.2])
  | .typeErr msg => .inl msg

/-- Generic per-cell map-and-scan for the datatype conversion: each
cell is rewritten and may append errors; an uncaught exception aborts
the comprehension, keeping the errors appended so far. -/
def cellMapScan (f : Nat × Value → Sum String (Value × List FileFormatError)) :
    List (Nat × Value) →
      Sum (String × List FileFormatError) (List (Nat × Value) × List FileFormatError)
  | [] => .inr ([], [])
  | iv :: rest =>
      match f iv with
      | .inl msg => .inl (msg, [])
      | .inr (v2, here) =>
          match cellMapScan f rest with
          | .inl (msg, es) => .inl (msg, here ++ es)
          | .inr (items, es) => .inr ((iv.1, v2) :: items, here ++ es)

def DatatypeProcessor.process (dt : Datatype) (fmtConv : Option String) (s : Series) :
    Sum (String × List FileFormatError) (Series × List FileFormatError) :=
  match cellMapScan (datatypeCell dt fmtConv s.name) s.items with
  | .inl e => .inl e
  | .inr (items, es) => .inr ({ s with items := items }, es)

/-! ### Running a processor chain -/

/-- Run one processor, appending its errors to the accumulated list. -/
def runProcessor (m : String → String → Bool) (p : Processor) (s : Series)
    (errs : List FileFormatError) :
    Sum (String × List FileFormatError) (Series × List FileFormatError) :=
  match p with
  | .uniqueness => .inr (s, errs ++ UniquenessProcessor.process s)
  | .regexP r =>
      match RegexProcessor.process m r s with
      | .inl (msg, es) => .inl (msg, errs ++ es)
      | .inr es => .inr (s, errs ++ es)
  | .optionsP opts =>
      match OptionsProcessor.process opts s with
      | .inl (msg, es) => .inl (msg, errs ++ es)
      | .inr es => .inr (s, errs ++ es)
  | .requiredP => .inr (s, errs ++ RequiredProcessor.process s)
  | .defaultsP dv mvs => .inr (DefaultsProcessor.process dv mvs s, errs)
  | .datatypeP dt dfmt =>
      match DatatypeProcessor.process dt (dfmt.map convert_dateformat) s with
      | .inl (msg, es) => .inl (msg, errs ++ es)
      | .inr (s2, es) => .inr (s2, errs ++ es)

/-- Fold a processor chain over the column (`ColumnFormat.process`). -/
def runProcessors (m : String → String → Bool) (ps : List Processor) (s : Series)
    (errs : List FileFormatError) :
    Sum (String × List FileFormatError) (Series × List FileFormatError) :=
  match ps with
  | [] => .inr (s, errs)
  | p :: rest =>
      match runProcessor m p s errs with
      | .inl e => .inl e
      | .inr (s2, errs2) => runProcessors m rest s2 errs2

/-- `ColumnFormat.process`: run the derived chain. -/
def ColumnFormat.process (m : String → String → Bool) (cf : ColumnFormat) (s : Series)
    (errs : List FileFormatError) :
    Sum (String × List FileFormatError) (Series × List FileFormatError) :=
  runProcessors m cf.get_processors s errs

/-! ### FileFormat orchestration -/

/-- A registered row validator: takes the row label and the row's
`(column name, value)` cells and returns the errors it appends.  The
schema's `validators` option is modelled with the registry lookup
already resolved. -/
def RowValidator : Type := Nat → List (String × Value) → List FileFormatError

/-- The recognized keys of the `FileFormat.options` mapping. -/
structure FFOptions where
  skiprows : Nat := 0
  ignore_additional_columns : Bool := false
  repeat_last_column : Bool := false
  on_error : Option String := none
  validators : List RowValidator := []

/-- The whole-file schema (`FileFormat`). -/
structure FileFormat where
  name : String := ""
  columns : List ColumnFormat
  description : Option String := none
  options : FFOptions := {}

/-- `FileFormat.check_additional_columns`: one FILE error listing every
raw column label outside the expected set, when any exist. -/
def check_additional_columns (df : Df) (expected : List String) : List FileFormatError :=
  let extra := df.labels.filter (fun c => !(expected.any (fun e => e == c)))
  if extra ≠ [] then
    [mkFileError "found_unexpected_columms"
      ("Found unexpected additional columns: " ++ String.intercalate ", " extra)]
  else []

/-- `FileFormat.ensure_expected_columns`: one FILE error listing the
expected labels absent from the frame, when any are.  (The source
renders the set in Python's unspecified set order; we keep declaration
order, which no claim depends on.) -/
def ensure_expected_columns (df : Df) (expected : List String) : List FileFormatError :=
  let missing := (expected.filter (fun e => !(df.labels.any (fun c => c == e)))).dedup
  if missing ≠ [] then
    [mkFileError "columns_missing"
      ("Requied columns missing: " ++ String.intercalate ", " missing)]
  else []

/-- The errors of the structural-check phase of `_process` (step 1):
the unexpected-columns check is skipped when `ignore_additional_columns`
*or* `repeat_last_column` is set; the missing-columns check always
runs. -/
def structuralErrors (ff : FileFormat) (df : Df) : List FileFormatError :=
  let expected := ff.columns.map ColumnFormat.label
  (if !ff.options.ignore_additional_columns && !ff.options.repeat_last_column then
    check_additional_columns df expected
  else []) ++ ensure_expected_columns df expected

/-- Column-processing loop of `_process`: for each declared column, run
its chain on `df[c.label]` and assign the result to `df2[c.name]`.  A
missing label raises `KeyError` (unreachable after the structural
checks pass). -/
def processCols (m : String → String → Bool) (cfs : List ColumnFormat) (df : Df)
    (df2 : Df) (errs : List FileFormatError) :
    Sum (String × List FileFormatError) (Df × List FileFormatError) :=
  match cfs with
  | [] => .inr (df2, errs)
  | cf :: rest =>
      match df.getSeries? cf.label with
      | none => .inl ("KeyError: " ++ cf.label, errs)
      | some s =>
          match cf.process m s errs with
          | .inl e => .inl e
          | .inr (s2, errs2) => processCols m rest df (df2.setCol cf.name s2.values) errs2

/-- `zip(*columns)`: rows across the given value lists, truncated to
the shortest list. -/
def zipStar (cols : List (List Value)) : List (List Value) :=
  match cols with
  | [] => []
  | _ =>
      let n := ((cols.map List.length).min?).getD 0
      (List.range n).map (fun j => cols.map (fun c => c.getD j .nan))

/-- The `notnull` row filter inside `process_repeat_columns`:
`[x for x in row if x and x is not np.nan]`.  The rows come from
`zip(*columns)` over the *processed* columns, whose datatype conversion
rebuilt each as a `pd.Series` with a concrete dtype (`Int64`,
`np.float32`, `str`, `datetime64[ns]`); iterating such a column boxes
fresh scalar objects, so the `is np.nan` identity test never sees the
`np.nan` singleton and never fires — float NaNs, being truthy, are
kept.  The filter therefore reduces to Python truthiness; testing
`pd.NA` (the Int64 missing value) for truthiness raises `TypeError`. -/
def notnullRow : List Value → Sum String (List Value)
  | [] => .inr []
  | v :: rest =>
      if v == Value.na then .inl "boolean value of NA is ambiguous"
      else
        match notnullRow rest with
        | .inl e => .inl e
        | .inr l => .inr (if pyTruthy v then v :: l else l)

/-- Apply `notnullRow` to every row, stopping at the first raise. -/
def notnullRows : List (List Value) → Sum String (List (List Value))
  | [] => .inr []
  | r :: rest =>
      match notnullRow r with
      | .inl e => .inl e
      | .inr r2 =>
          match notnullRows rest with
          | .inl e => .inl e
          | .inr l => .inr (r2 :: l)

/-- Collected row values become one list-valued cell.  The processor
chain ends in the datatype conversion, so surviving (truthy) values are
always scalars; a non-scalar would only arise outside the modelled
code paths and is rendered through `pyStr` defensively. -/
def toAtomCell (vs : List Value) : Value :=
  .listv (vs.map (fun v =>
    match v with
    | .atom a => a
    | .listv l => .str (pyStr (.listv l))))

/-- First phase of `process_repeat_columns`: run the repeat format's
chain over each trailing column independently, in order. -/
def processRepeatList (m : String → String → Bool) (cf : ColumnFormat) :
    List Series → List FileFormatError →
      Sum (String × List FileFormatError) (List Series × List FileFormatError)
  | [], errs => .inr ([], errs)
  | c :: rest, errs =>
      match cf.process m c errs with
      | .inl e => .inl e
      | .inr (c2, errs2) =>
          match processRepeatList m cf rest errs2 with
          | .inl e => .inl e
          | .inr (cs, errs3) => .inr (c2 :: cs, errs3)

/-- `FileFormat.process_repeat_columns`: run the repeat format's chain
over each trailing column independently, then combine per row, keeping
the truthy values in column order as one list-valued cell. -/
def process_repeat_columns (m : String → String → Bool) (cf : ColumnFormat)
    (cols : List Series) (errs : List FileFormatError) :
    Sum (String × List FileFormatError) (List Value × List FileFormatError) :=
  match processRepeatList m cf cols errs with
  | .inl e => .inl e
  | .inr (cs, errs2) =>
      match notnullRows (zipStar (cs.map Series.values)) with
      | .inl e => .inl (e, errs2)
      | .inr rows => .inr (rows.map toAtomCell, errs2)

/-- Step 3 of `_process` (`run_validators`): for every row, invoke
every named validator in order; each may append errors. -/
def runValidators (vs : List RowValidator) (df2 : Df) : List FileFormatError :=
  df2.rows.flatMap (fun row => vs.flatMap (fun f => f row.1 row.2))

/-- Does any ROW-level error reference this row label?  (`rejected_rows`
membership.) -/
def hasRowError (errs : List FileFormatError) (L : Nat) : Bool :=
  errs.any (fun e => e.error_level == FileErrorLevel.ROW && e.row_index == some L)

/-- The declared columns actually processed one by one (step 2 of
`_process`): all of them, or all but the last when
`repeat_last_column`. -/
def FileFormat.mainColumnFormats (ff : FileFormat) : List ColumnFormat :=
  if ff.options.repeat_last_column then ff.columns.dropLast else ff.columns

/-- The repeat phase of `_process`: the raw columns at positions
`len(column_formats)` onward (a positional slice of the frame, whatever
their labels) are pushed through the last declared column's chain and
combined into one list-valued output column. -/
def FileFormat.repeatPhase (m : String → String → Bool) (ff : FileFormat) (df : Df)
    (df2a : Df) (errs : List FileFormatError) :
    Sum (String × List FileFormatError) (Df × List FileFormatError) :=
  match ff.columns.getLast? with
  | none => .inl ("list index out of range", errs)
  | some rcf =>
      let names := df.labels.drop ff.mainColumnFormats.length
      let cols := names.map (fun nm =>
        (df.getSeries? nm).getD { name := nm, items := [] })
      match process_repeat_columns m rcf cols errs with
      | .inl e => .inl e
      | .inr (vals, errs2) => .inr (df2a.setColAligned rcf.name vals, errs2)

/-- Steps 2 of `_process` (column processing plus the repeat-column
aggregation), producing the output frame `df2` and the error list.
Extracting the repeat format from an empty column list raises
`IndexError`. -/
def FileFormat.columnPhase (m : String → String → Bool) (ff : FileFormat) (df : Df)
    (errs : List FileFormatError) :
    Sum (String × List FileFormatError) (Df × List FileFormatError) :=
  if ff.options.repeat_last_column ∧ ff.columns = [] then
    .inl ("list index out of range", errs)
  else
    match processCols m ff.mainColumnFormats df { index := df.index, cols := [] } errs with
    | .inl e => .inl e
    | .inr (df2a, errs2) =>
        if ff.options.repeat_last_column then ff.repeatPhase m df df2a errs2
        else .inr (df2a, errs2)

/-- `FileFormat._process`, as a function from the input frame and the
report built so far to either `inl (exception text, report as mutated
before the raise)` or the finished report.  Mirrors the source step by
step: structural checks with early REJECTED return; per-column
processing into a fresh frame on the same index plus the positional
repeat slice; row validators; the `on_error == "reject-file"` early
return (which leaves `df` unset); and the row filter over
`rejected_rows`. -/
def FileFormat.processE (m : String → String → Bool) (ff : FileFormat) (df : Df)
    (r0 : FileFormatReport) : Sum (String × FileFormatReport) FileFormatReport :=
  let r1 := { r0 with errors := r0.errors ++ structuralErrors ff df }
  if r1.errors = [] then
    match ff.columnPhase m df r1.errors with
    | .inl (msg, es) => .inl (msg, { r1 with errors := es })
    | .inr (df2b, errs3) =>
        let r2 := { r1 with errors := errs3 ++ runValidators ff.options.validators df2b }
        if r2.errors ≠ [] ∧ ff.options.on_error = some "reject-file" then
          .inr { r2 with status := .REJECTED }
        else
          .inr { r2 with
            df := some (df2b.filterRows (fun L => !(hasRowError r2.errors L))) }
  else .inr { r1 with status := .REJECTED }

/-- `FileFormat.process_data`: build the fresh report, run `_process`,
and convert any escaped exception into a FILE `internal_error` carrying
the exception's text, with status REJECTED. -/
def FileFormat.process_data (m : String → String → Bool) (ff : FileFormat) (df : Df) :
    FileFormatReport :=
  let report : FileFormatReport := { total_rows := df.nrows }
  match ff.processE m df report with
  | .inr r => r
  | .inl (msg, r) =>
      { r with errors := r.errors ++ [mkFileError "internal_error" msg],
               status := .REJECTED }

/-! ### Object-level report model (aliasing semantics of
`dataclasses.replace`)

`FileFormatReport` objects produced by `with_status` / `with_filename` /
`with_df` are shallow copies: scalar fields are copied by value, while
the `errors` attribute of the copy is the *same list object* as the
original's.  To state that, `ErrHeap` is a little heap of error lists
and `ReportObj` holds a reference into it; `dataclasses.replace` copies
the reference, and `add_row_error`/`add_file_error` mutate the heap
cell in place. -/

/-- Heap of Python list objects holding `FileFormatError`s. -/
def ErrHeap : Type := List (List FileFormatError)

def ErrHeap.read (h : ErrHeap) (ref : Nat) : List FileFormatError :=
  List.getD h ref []

def ErrHeap.write (h : ErrHeap) (ref : Nat) (l : List FileFormatError) : ErrHeap :=
  List.set h ref l

/-- A `FileFormatReport` object: scalar fields by value, the `errors`
list by reference. -/
structure ReportObj where
  status : FileStatus := .ACCEPTED
  filename : Option String := none
  df : Option Df := none
  errorsRef : Nat
  total_rows : Nat := 0
deriving DecidableEq

/-- `with_filename`: `dataclasses.replace(self, filename=filename)`. -/
def ReportObj.with_filename (r : ReportObj) (filename : String) : ReportObj :=
  { r with filename := some filename }

/-- `with_status`: `dataclasses.replace(self, status=status)`. -/
def ReportObj.with_status (r : ReportObj) (status : FileStatus) : ReportObj :=
  { r with status := status }

/-- `with_df`: `dataclasses.replace(self, df=df)`. -/
def ReportObj.with_df (r : ReportObj) (df : Df) : ReportObj :=
  { r with df := some df }

/-- `add_file_error`: append to the shared errors list in place. -/
def ReportObj.add_file_error (r : ReportObj) (h : ErrHeap) (code msg : String) : ErrHeap :=
  h.write r.errorsRef (h.read r.errorsRef ++ [mkFileError code msg])

/-- `add_row_error`: append to the shared errors list in place. -/
def ReportObj.add_row_error (r : ReportObj) (h : ErrHeap) (code msg : String)
    (row_index : Nat) (column_name : String) (v : Value) : ErrHeap :=
  h.write r.errorsRef (h.read r.errorsRef ++ [mkRowError code msg row_index column_name v])

/-! ### Schema loading (`ColumnFormat.from_dict`) -/

/-- One column object of the schema definition document, with the keys
`ColumnFormat.from_dict` recognizes typed as the document supplies
them (`none` = key absent) and the unrecognized keys in `extra`. -/
structure ColumnDict where
  name : String
  label : String
  datatype : Option String := none
  description : Option String := none
  required : Option Bool := none
  default : Option Value := none
  regex : Option String := none
  transform : Option String := none
  dateformat : Option String := none
  unique : Option Bool := none
  options : Option (List String) := none
  missing_values : Option (List String) := none
  extra : List (String × String) := []

/-- `ColumnFormat.from_dict`: keep recognized keys, treat a column with
a `default` as optional unless `required` is given explicitly, convert
the datatype name (unknown name or missing datatype raises, modelled as
`inl` with the exception text), and capture unrecognized keys as
`params`. -/
def ColumnFormat.from_dict (d : ColumnDict) : Sum String ColumnFormat :=
  let required : Bool :=
    match d.required with
    | some b => b
    | none =>
        match d.default with
        | some _ => false
        | none => true
  match d.datatype with
  | none => .inl "missing required argument: datatype"
  | some ds =>
      match Datatype.ofWire? ds with
      | none => .inl (ds ++ " is not a valid Datatype")
      | some dt =>
          .inr { name := d.name, label := d.label, datatype := dt,
                 description := d.description, required := required,
                 default := (d.default).getD .pynone, regex := d.regex,
                 transform := d.transform, dateformat := d.dateformat,
                 unique := (d.unique).getD false, options := d.options,
                 missing_values := d.missing_values, params := d.extra }

/-- Shape of every error a column processor can append: ROW level, one
of the five content error codes. -/
def isProcessorError (e : FileFormatError) : Bool :=
  e.error_level == FileErrorLevel.ROW &&
    (e.error_code == "duplicate_value" || e.error_code == "invalid_pattern" ||
     e.error_code == "invalid_value" || e.error_code == "missing_value" ||
     e.error_code == "invalid-value")

/-- The `inr` part of a per-cell result, for stating closed forms. -/
def cellOut (x : Sum String (List FileFormatError)) : List FileFormatError :=
  match x with
  | .inl _ => []
  | .inr l => l

/-- The value part of a successful datatype cell conversion. -/
def cellVal (x : Sum String (Value × List FileFormatError)) : Value :=
  match x with
  | .inl _ => .na
  | .inr p => p.1

/-- The error part of a successful datatype cell conversion. -/
def cellErrs (x : Sum String (Value × List FileFormatError)) : List FileFormatError :=
  match x with
  | .inl _ => []
  | .inr p => p.2

/-! ### Concrete instances used by witnesses and counterexamples -/

/-- A one-column schema: required INTEGER column named and labelled
`a`. -/
def colA : ColumnFormat := { name := "a", label := "a", datatype := .INTEGER }

def ffA : FileFormat := { columns := [colA] }

def ffA_reject : FileFormat :=
  { columns := [colA], options := { on_error := some "reject-file" } }

def ffA_ignore : FileFormat :=
  { columns := [colA], options := { ignore_additional_columns := true } }

/-- Two rows for column `a`: `"1"` converts, `"x"` does not. -/
def dfA2 : Df := { index := [0, 1], cols := [("a", [.str "1", .str "x"])] }

/-- One clean row for `a` plus an unexpected column `zz`. -/
def dfExtra : Df := { index := [0], cols := [("a", [.str "1"]), ("zz", [.str "9"])] }

/-- The report `_process` produces on `ffA`/`dfA2`: row 1 is dropped,
the cleaned table keeps row 0, status stays ACCEPTED. -/
def rA2 : FileFormatReport :=
  { status := .ACCEPTED, filename := none,
    df := some { index := [0], cols := [("a", [.intv 1])] },
    errors := [{ error_level := .ROW, error_code := "invalid-value",
                 error_message := "Invalid integer: " ++ sq ++ "x" ++ sq,
                 row_index := some 1, column_name := some "a",
                 value := some (.str "x") }],
    total_rows := 2 }

/-- A column for an options check: a member, a `None`, an empty
string, a non-member string, and a `NaN`. -/
def sOpts : Series :=
  { name := "c",
    items := [(0, .str "Yes"), (1, .pynone), (2, .str ""), (3, .str "MayBe"), (4, .nan)] }

/-- Second declared INTEGER column for the repeat-column scenario. -/
def colB : ColumnFormat := { name := "b", label := "b", datatype := .INTEGER }

/-- Schema `a`, `b` with `repeat_last_column` set. -/
def ffRep : FileFormat :=
  { columns := [colA, colB], options := { repeat_last_column := true } }

/-- One row over raw columns `a`, `b`, `x`: the repeat slice is
`b = "2"`, `x = "0"`. -/
def dfRep : Df :=
  { index := [0], cols := [("a", [.str "1"]), ("b", [.str "2"]), ("x", [.str "0"])] }

/-- The report `_process` produces on `ffRep`/`dfRep`: the falsy `0`
is dropped from the combined repeat cell. -/
def rRep : FileFormatReport :=
  { status := .ACCEPTED, filename := none,
    df := some { index := [0], cols := [("a", [.intv 1]), ("b", [.listv [.intv 2]])] },
    errors := [], total_rows := 1 }

/-- A required DATE column with a `DD/MM/YYYY` dateformat. -/
def colD : ColumnFormat :=
  { name := "d", label := "d", datatype := .DATE, dateformat := some "DD/MM/YYYY" }

def ffD : FileFormat := { columns := [colD] }

/-- One row holding a date in the declared input format. -/
def dfD : Df := { index := [0], cols := [("d", [.str "10/05/2020"])] }

/-- The cleaned table of the first run on `dfD`: the DATE conversion
rewrites the cell to ISO form, which no longer parses under the
declared `DD/MM/YYYY` format. -/
def dfD1 : Df := { index := [0], cols := [("d", [.str "2020-05-10"])] }

/-- One row with a parseable integer string for the idempotence
witness. -/
def dfW : Df := { index := [0], cols := [("a", [.str "7"])] }

/-- A required FLOAT column. -/
def colF : ColumnFormat := { name := "f", label := "f", datatype := .FLOAT }

def ffF : FileFormat := { columns := [colF] }

/-- One row whose cell is the string `"nan"`, which `float()` parses
cleanly into a NaN. -/
def dfF : Df := { index := [0], cols := [("f", [.str "nan"])] }

/-- The cleaned table of the first run on `dfF`: a NaN cell. -/
def dfF1 : Df := { index := [0], cols := [("f", [.nan])] }

/-- A non-required FLOAT column used as a repeat format. -/
def colFd : ColumnFormat :=
  { name := "f", label := "f", datatype := .FLOAT, required := false }

/-- Repeat schema over the FLOAT column. -/
def ffFR : FileFormat :=
  { columns := [colFd], options := { repeat_last_column := true } }

/-- One row over raw columns `f` and `g`, both empty cells: each
becomes a NaN in its processed float column. -/
def dfFR : Df := { index := [0], cols := [("f", [.str ""]), ("g", [.str ""])] }

/-! ## Theorems -/

/-- A reference matcher for concrete instances: every value matches
every pattern (no concrete claim instance below uses a regex column,
so the matcher is irrelevant there). -/
def matchAll : String → String → Bool := fun _ _ => true

/-- Rank of a processor kind in the fixed chain order of
`get_processors` (Required and Defaults share a slot because they are
mutually exclusive). -/
def kindRank : Processor → Nat
  | .uniqueness => 0
  | .regexP _ => 1
  | .optionsP _ => 2
  | .requiredP => 3
  | .defaultsP _ _ => 3
  | .datatypeP _ _ => 4

/-- C7: For every ColumnFormat, the derived processor chain is exactly,
in this order: UniquenessProcessor if unique; RegexProcessor if
datatype is STRING and regex is set (truthy); OptionsProcessor if
options is set; then exactly one of RequiredProcessor (if required) or
DefaultsProcessor (if not required); and DatatypeProcessor always
present and always last.  Stated as: the kind ranks are strictly
increasing along the chain (fixed order, no duplicates), the chain ends
in the datatype processor, and each conditional member is present
exactly under its flag. -/
theorem C7_processor_chain_order (cf : ColumnFormat) :
    List.Chain' (· < ·) (cf.get_processors.map kindRank)
    ∧ cf.get_processors.getLast? = some (.datatypeP cf.datatype cf.dateformat)
    ∧ (Processor.uniqueness ∈ cf.get_processors ↔ cf.unique = true)
    ∧ (∀ r, Processor.regexP r ∈ cf.get_processors ↔
        (cf.regex = some r ∧ cf.datatype = .STRING ∧ r ≠ ""))
    ∧ (∀ o, Processor.optionsP o ∈ cf.get_processors ↔ cf.options = some o)
    ∧ (Processor.requiredP ∈ cf.get_processors ↔ cf.required = true)
    ∧ (∀ dv mv, Processor.defaultsP dv mv ∈ cf.get_processors ↔
        (cf.required = false ∧ dv = cf.default ∧ mv = cf.missing_values)) := by
  obtain ⟨nm, lb, dt, de, rq, df, rx, tf, dfmt, uq, op, mv, pa⟩ := cf
  simp only [ColumnFormat.get_processors]
  cases uq <;> cases rq <;> cases rx <;> cases op <;>
    simp only [ColumnFormat.get_processors] <;>
    split_ifs <;>
    simp_all [kindRank] <;>
    aesop

/-- C10: a column definition with neither a `required` key nor a
`default` key yields a ColumnFormat with `required = true`. -/
theorem C10_required_by_default (d : ColumnDict) (cf : ColumnFormat)
    (hreq : d.required = none) (hdef : d.default = none)
    (h : ColumnFormat.from_dict d = .inr cf) : cf.required = true := by
  cases hdt : d.datatype with
  | none => simp [ColumnFormat.from_dict, hdt] at h
  | some ds =>
      cases hw : Datatype.ofWire? ds with
      | none => simp [ColumnFormat.from_dict, hdt, hw] at h
      | some dt =>
          simp [ColumnFormat.from_dict, hreq, hdef, hdt, hw] at h
          rw [← h]

/-- Witness for C10 at a concrete column definition. -/
theorem C10_required_by_default_witness :
    ∃ cf, ColumnFormat.from_dict
        { name := "age", label := "Age", datatype := some "integer" } = .inr cf
      ∧ cf.required = true := by
  cases h : ColumnFormat.from_dict
      { name := "age", label := "Age", datatype := some "integer" } with
  | inl e => exact absurd h (by simp [ColumnFormat.from_dict, Datatype.ofWire?])
  | inr cf => exact ⟨cf, rfl, C10_required_by_default _ cf rfl rfl h⟩

/-- Reading back the heap cell just written. -/
theorem ErrHeap.read_write_self (h : ErrHeap) (ref : Nat) (l : List FileFormatError)
    (href : ref < List.length h) : (h.write ref l).read ref = l := by
  simp [ErrHeap.read, ErrHeap.write, List.getD, List.getElem?_set_self, href]

/-- C9: `with_status`, `with_filename` and `with_df` each return a new
report value carrying the updated field while preserving every other
field of the original — in particular the reference to the errors
list, which stays shared, so an error appended through the new value
(`add_row_error`/`add_file_error`) is visible through both report
values. -/
theorem C9_copy_on_write_shared_errors (h : ErrHeap) (r : ReportObj) (st : FileStatus)
    (fn : String) (d : Df) (code msg : String) (i : Nat) (cn : String) (v : Value)
    (href : r.errorsRef < List.length h) :
    ((r.with_status st).status = st
      ∧ (r.with_status st).filename = r.filename
      ∧ (r.with_status st).df = r.df
      ∧ (r.with_status st).total_rows = r.total_rows
      ∧ (r.with_status st).errorsRef = r.errorsRef)
    ∧ ((r.with_filename fn).filename = some fn
      ∧ (r.with_filename fn).status = r.status
      ∧ (r.with_filename fn).df = r.df
      ∧ (r.with_filename fn).errorsRef = r.errorsRef)
    ∧ ((r.with_df d).df = some d
      ∧ (r.with_df d).status = r.status
      ∧ (r.with_df d).filename = r.filename
      ∧ (r.with_df d).errorsRef = r.errorsRef)
    ∧ (((r.with_status st).add_row_error h code msg i cn v).read r.errorsRef
        = h.read r.errorsRef ++ [mkRowError code msg i cn v]
      ∧ ((r.with_status st).add_row_error h code msg i cn v).read
          (r.with_status st).errorsRef
        = h.read r.errorsRef ++ [mkRowError code msg i cn v])
    ∧ (((r.with_df d).add_file_error h code msg).read r.errorsRef
        = h.read r.errorsRef ++ [mkFileError code msg]
      ∧ ((r.with_df d).add_file_error h code msg).read (r.with_df d).errorsRef
        = h.read r.errorsRef ++ [mkFileError code msg]) := by
  refine ⟨⟨rfl, rfl, rfl, rfl, rfl⟩, ⟨rfl, rfl, rfl, rfl⟩, ⟨rfl, rfl, rfl, rfl⟩, ⟨?_, ?_⟩, ?_, ?_⟩
    <;> simp [ReportObj.add_row_error, ReportObj.add_file_error, ReportObj.with_status,
      ReportObj.with_df, ErrHeap.read_write_self, href]

/-- Witness for C9 at a concrete heap and report. -/
theorem C9_copy_on_write_shared_errors_witness :
    (({ errorsRef := 0 } : ReportObj).with_status .REJECTED).status = .REJECTED
    ∧ ((({ errorsRef := 0 } : ReportObj).with_status .REJECTED).add_row_error
          ([[]] : ErrHeap) "invalid_value" "bad" 3 "c" (.str "x")).read 0
        = [mkRowError "invalid_value" "bad" 3 "c" (.str "x")] := by
  have h := C9_copy_on_write_shared_errors ([[]] : ErrHeap) { errorsRef := 0 }
    .REJECTED "f.csv" { index := [], cols := [] } "invalid_value" "bad" 3 "c" (.str "x")
    (by simp)
  exact ⟨h.1.1, h.2.2.2.1.1⟩

/-- C6: `process_data` is a total function of the input frame: either
`_process` finished and its report is returned unchanged, or the
exception text of the fault that escaped `_process` is appended to the
report produced so far as one FILE-level `internal_error` and the
returned report has status REJECTED. -/
theorem C6_internal_error_catch_all (m : String → String → Bool) (ff : FileFormat)
    (df : Df) :
    (∃ r, ff.processE m df { total_rows := df.nrows } = .inr r
      ∧ ff.process_data m df = r)
    ∨ (∃ msg r, ff.processE m df { total_rows := df.nrows } = .inl (msg, r)
      ∧ ff.process_data m df =
          { r with errors := r.errors ++ [mkFileError "internal_error" msg],
                   status := .REJECTED }
      ∧ (ff.process_data m df).status = .REJECTED) := by
  cases h : ff.processE m df { total_rows := df.nrows } with
  | inr r =>
      refine .inl ⟨r, rfl, ?_⟩
      simp [FileFormat.process_data, h]
  | inl p =>
      obtain ⟨msg, r⟩ := p
      refine .inr ⟨msg, r, rfl, ?_, ?_⟩ <;> simp [FileFormat.process_data, h]

/-! ### Helper lemmas: error accumulation and frame shape -/


theorem uniq_go_errors (colname : String) (seen : List Value) (items : List (Nat × Value)) :
    (UniquenessProcessor.go colname seen items).all isProcessorError = true := by
  induction items generalizing seen with
  | nil => simp [UniquenessProcessor.go]
  | cons iv rest ih =>
      simp only [UniquenessProcessor.go, List.all_append, Bool.and_eq_true]
      refine ⟨?_, ih _⟩
      split <;> simp [isProcessorError, mkRowError]

theorem required_errors (s : Series) :
    (RequiredProcessor.process s).all isProcessorError = true := by
  rw [List.all_eq_true]
  intro e he
  rw [RequiredProcessor.process, List.mem_filterMap] at he
  obtain ⟨iv, _, hf⟩ := he
  split at hf
  · cases hf; simp [isProcessorError, mkRowError]
  · cases hf


theorem cellScan_all (f : Nat × Value → Sum String (List FileFormatError))
    (P : FileFormatError → Bool)
    (hf : ∀ iv l, f iv = .inr l → l.all P = true) (items : List (Nat × Value)) :
    (∀ p, cellScan f items = .inl p → p.2.all P = true) ∧
    (∀ es, cellScan f items = .inr es → es.all P = true) := by
  induction items with
  | nil =>
      constructor
      · intro p h; cases h
      · intro es h; cases h; rfl
  | cons iv rest ih =>
      constructor
      · intro p h
        simp only [cellScan] at h
        cases hcell : f iv with
        | inl msg => rw [hcell] at h; cases h; rfl
        | inr here =>
            rw [hcell] at h
            cases hrest : cellScan f rest with
            | inl q =>
                obtain ⟨m2, es2⟩ := q
                rw [hrest] at h
                cases h
                simp only [List.all_append, Bool.and_eq_true]
                exact ⟨hf iv here hcell, ih.1 (m2, es2) hrest⟩
            | inr es2 => rw [hrest] at h; cases h
      · intro es h
        simp only [cellScan] at h
        cases hcell : f iv with
        | inl msg => rw [hcell] at h; cases h
        | inr here =>
            rw [hcell] at h
            cases hrest : cellScan f rest with
            | inl q => obtain ⟨m2, es2⟩ := q; rw [hrest] at h; cases h
            | inr es2 =>
                rw [hrest] at h
                cases h
                simp only [List.all_append, Bool.and_eq_true]
                exact ⟨hf iv here hcell, ih.2 es2 hrest⟩

/-- When no cell raises, `cellScan` succeeds with the concatenation of
the per-cell error lists, in order. -/
theorem cellScan_ok (f : Nat × Value → Sum String (List FileFormatError))
    (items : List (Nat × Value))
    (hok : ∀ iv ∈ items, ∃ l, f iv = .inr l) :
    cellScan f items = .inr (items.flatMap (fun iv => cellOut (f iv))) := by
  induction items with
  | nil => rfl
  | cons iv rest ih =>
      obtain ⟨l, hl⟩ := hok iv (by simp)
      have := ih (fun jv hj => hok jv (by simp [hj]))
      simp only [cellScan, hl, this, List.flatMap_cons, cellOut]

theorem cellMapScan_all (f : Nat × Value → Sum String (Value × List FileFormatError))
    (P : FileFormatError → Bool)
    (hf : ∀ iv v l, f iv = .inr (v, l) → l.all P = true) (items : List (Nat × Value)) :
    (∀ p, cellMapScan f items = .inl p → p.2.all P = true) ∧
    (∀ its es, cellMapScan f items = .inr (its, es) → es.all P = true) := by
  induction items with
  | nil =>
      constructor
      · intro p h; cases h
      · intro its es h; cases h; rfl
  | cons iv rest ih =>
      constructor
      · intro p h
        simp only [cellMapScan] at h
        cases hcell : f iv with
        | inl msg => rw [hcell] at h; cases h; rfl
        | inr q =>
            obtain ⟨v2, here⟩ := q
            rw [hcell] at h
            cases hrest : cellMapScan f rest with
            | inl q2 =>
                obtain ⟨m2, es2⟩ := q2
                rw [hrest] at h
                cases h
                simp only [List.all_append, Bool.and_eq_true]
                exact ⟨hf iv v2 here hcell, ih.1 (m2, es2) hrest⟩
            | inr q2 => obtain ⟨its2, es2⟩ := q2; rw [hrest] at h; cases h
      · intro its es h
        simp only [cellMapScan] at h
        cases hcell : f iv with
        | inl msg => rw [hcell] at h; cases h
        | inr q =>
            obtain ⟨v2, here⟩ := q
            rw [hcell] at h
            cases hrest : cellMapScan f rest with
            | inl q2 => obtain ⟨m2, es2⟩ := q2; rw [hrest] at h; cases h
            | inr q2 =>
                obtain ⟨its2, es2⟩ := q2
                rw [hrest] at h
                cases h
                simp only [List.all_append, Bool.and_eq_true]
                exact ⟨hf iv v2 here hcell, ih.2 its2 es2 hrest⟩



/-- When no cell raises, `cellMapScan` succeeds, rewriting each cell in
place and concatenating the per-cell error lists in order. -/
theorem cellMapScan_ok (f : Nat × Value → Sum String (Value × List FileFormatError))
    (items : List (Nat × Value))
    (hok : ∀ iv ∈ items, ∃ v l, f iv = .inr (v, l)) :
    cellMapScan f items =
      .inr (items.map (fun iv => (iv.1, cellVal (f iv))),
            items.flatMap (fun iv => cellErrs (f iv))) := by
  induction items with
  | nil => rfl
  | cons iv rest ih =>
      obtain ⟨v, l, hl⟩ := hok iv (by simp)
      have := ih (fun jv hj => hok jv (by simp [hj]))
      simp only [cellMapScan, hl, this, List.flatMap_cons, List.map_cons, cellVal, cellErrs]

/-- `cellMapScan` rewrites cells in place: the row labels of a
successful result are those of the input. -/
theorem cellMapScan_fst (f : Nat × Value → Sum String (Value × List FileFormatError))
    (items its : List (Nat × Value)) (es : List FileFormatError)
    (h : cellMapScan f items = .inr (its, es)) :
    its.map Prod.fst = items.map Prod.fst := by
  induction items generalizing its es with
  | nil => cases h; rfl
  | cons iv rest ih =>
      simp only [cellMapScan] at h
      cases hcell : f iv with
      | inl msg => rw [hcell] at h; cases h
      | inr q =>
          obtain ⟨v2, here⟩ := q
          rw [hcell] at h
          cases hrest : cellMapScan f rest with
          | inl q2 => obtain ⟨m2, es2⟩ := q2; rw [hrest] at h; cases h
          | inr q2 =>
              obtain ⟨its2, es2⟩ := q2
              rw [hrest] at h
              cases h
              simp [ih its2 es2 hrest]

theorem regexCell_codes (m : String → String → Bool) (regex colname : String)
    (iv : Nat × Value) (l : List FileFormatError) (h : regexCell m regex colname iv = .inr l) :
    l.all isProcessorError = true := by
  obtain ⟨i, v⟩ := iv
  cases v with
  | listv vs => cases h
  | atom a =>
      cases a <;> simp only [regexCell] at h <;> cases h <;>
        first
          | rfl
          | (split <;> simp [isProcessorError, mkRowError])

theorem optionsCell_codes (options : List String) (colname : String)
    (iv : Nat × Value) (l : List FileFormatError) (h : optionsCell options colname iv = .inr l) :
    l.all isProcessorError = true := by
  simp only [optionsCell] at h
  split at h
  · cases h; rfl
  · split at h
    · cases h
    · cases h
      split <;> simp [isProcessorError, mkRowError]

theorem datatypeCell_codes (dt : Datatype) (fmtConv : Option String) (colname : String)
    (iv : Nat × Value) (v : Value) (l : List FileFormatError)
    (h : datatypeCell dt fmtConv colname iv = .inr (v, l)) :
    l.all isProcessorError = true := by
  simp only [datatypeCell] at h
  cases hconv : convertAtom dt fmtConv iv.2 with
  | ok v2 => rw [hconv] at h; cases h; rfl
  | valueErr msg => rw [hconv] at h; cases h; simp [isProcessorError, mkRowError]
  | typeErr msg => rw [hconv] at h; cases h

/-- Error accumulation shape of one processor run: the new errors are
appended after the incoming ones and are all processor content errors;
on success, the series keeps its name and row labels. -/
theorem runProcessor_shape (m : String → String → Bool) (p : Processor) (s : Series)
    (errs : List FileFormatError) :
    (∀ msg es, runProcessor m p s errs = .inl (msg, es) →
        ∃ new, es = errs ++ new ∧ new.all isProcessorError = true) ∧
    (∀ s2 es, runProcessor m p s errs = .inr (s2, es) →
        (∃ new, es = errs ++ new ∧ new.all isProcessorError = true)
        ∧ s2.name = s.name ∧ s2.items.map Prod.fst = s.items.map Prod.fst) := by
  cases p with
  | uniqueness =>
      constructor
      · intro msg es h; cases h
      · intro s2 es h
        cases h
        exact ⟨⟨_, rfl, uniq_go_errors _ _ _⟩, rfl, rfl⟩
  | regexP r =>
      constructor
      · intro msg es h
        simp only [runProcessor, RegexProcessor.process] at h
        cases hc : cellScan (regexCell m r s.name) s.items with
        | inl q =>
            obtain ⟨m2, es2⟩ := q
            rw [hc] at h; cases h
            exact ⟨es2, rfl, (cellScan_all _ _ (regexCell_codes m r s.name) s.items).1 _ hc⟩
        | inr es2 => rw [hc] at h; cases h
      · intro s2 es h
        simp only [runProcessor, RegexProcessor.process] at h
        cases hc : cellScan (regexCell m r s.name) s.items with
        | inl q => obtain ⟨m2, es2⟩ := q; rw [hc] at h; cases h
        | inr es2 =>
            rw [hc] at h; cases h
            exact ⟨⟨es2, rfl,
              (cellScan_all _ _ (regexCell_codes m r s.name) s.items).2 _ hc⟩, rfl, rfl⟩
  | optionsP opts =>
      constructor
      · intro msg es h
        simp only [runProcessor, OptionsProcessor.process] at h
        cases hc : cellScan (optionsCell opts s.name) s.items with
        | inl q =>
            obtain ⟨m2, es2⟩ := q
            rw [hc] at h; cases h
            exact ⟨es2, rfl, (cellScan_all _ _ (optionsCell_codes opts s.name) s.items).1 _ hc⟩
        | inr es2 => rw [hc] at h; cases h
      · intro s2 es h
        simp only [runProcessor, OptionsProcessor.process] at h
        cases hc : cellScan (optionsCell opts s.name) s.items with
        | inl q => obtain ⟨m2, es2⟩ := q; rw [hc] at h; cases h
        | inr es2 =>
            rw [hc] at h; cases h
            exact ⟨⟨es2, rfl,
              (cellScan_all _ _ (optionsCell_codes opts s.name) s.items).2 _ hc⟩, rfl, rfl⟩
  | requiredP =>
      constructor
      · intro msg es h; cases h
      · intro s2 es h
        cases h
        exact ⟨⟨_, rfl, required_errors _⟩, rfl, rfl⟩
  | defaultsP dv mvs =>
      constructor
      · intro msg es h; cases h
      · intro s2 es h
        cases h
        refine ⟨⟨[], by simp, rfl⟩, rfl, ?_⟩
        simp [DefaultsProcessor.process]
  | datatypeP dt dfmt =>
      constructor
      · intro msg es h
        simp only [runProcessor, DatatypeProcessor.process] at h
        cases hc : cellMapScan (datatypeCell dt (dfmt.map convert_dateformat) s.name) s.items with
        | inl q =>
            obtain ⟨m2, es2⟩ := q
            rw [hc] at h; cases h
            exact ⟨es2, rfl,
              (cellMapScan_all _ _ (datatypeCell_codes dt _ s.name) s.items).1 _ hc⟩
        | inr q =>
            obtain ⟨its2, es2⟩ := q
            rw [hc] at h; cases h
      · intro s2 es h
        simp only [runProcessor, DatatypeProcessor.process] at h
        cases hc : cellMapScan (datatypeCell dt (dfmt.map convert_dateformat) s.name) s.items with
        | inl q => obtain ⟨m2, es2⟩ := q; rw [hc] at h; cases h
        | inr q =>
            obtain ⟨its2, es2⟩ := q
            rw [hc] at h; cases h
            exact ⟨⟨es2, rfl,
              (cellMapScan_all _ _ (datatypeCell_codes dt _ s.name) s.items).2 _ _ hc⟩, rfl,
              cellMapScan_fst _ _ _ _ hc⟩

/-- Error accumulation shape of a whole processor chain. -/
theorem runProcessors_shape (m : String → String → Bool) (ps : List Processor)
    (s : Series) (errs : List FileFormatError) :
    (∀ msg es, runProcessors m ps s errs = .inl (msg, es) →
        ∃ new, es = errs ++ new ∧ new.all isProcessorError = true) ∧
    (∀ s2 es, runProcessors m ps s errs = .inr (s2, es) →
        (∃ new, es = errs ++ new ∧ new.all isProcessorError = true)
        ∧ s2.name = s.name ∧ s2.items.map Prod.fst = s.items.map Prod.fst) := by
  induction ps generalizing s errs with
  | nil =>
      constructor
      · intro msg es h; cases h
      · intro s2 es h
        cases h
        exact ⟨⟨[], by simp, rfl⟩, rfl, rfl⟩
  | cons p rest ih =>
      constructor
      · intro msg es h
        simp only [runProcessors] at h
        cases hp : runProcessor m p s errs with
        | inl q =>
            obtain ⟨m2, es2⟩ := q
            rw [hp] at h; cases h
            exact (runProcessor_shape m p s errs).1 _ _ hp
        | inr q =>
            obtain ⟨s2, errs2⟩ := q
            rw [hp] at h
            obtain ⟨⟨new1, rfl, hall1⟩, _, _⟩ := (runProcessor_shape m p s errs).2 _ _ hp
            obtain ⟨new2, rfl, hall2⟩ := (ih s2 (errs ++ new1)).1 _ _ h
            exact ⟨new1 ++ new2, by simp, by simp_all⟩
      · intro s2 es h
        simp only [runProcessors] at h
        cases hp : runProcessor m p s errs with
        | inl q => obtain ⟨m2, es2⟩ := q; rw [hp] at h; cases h
        | inr q =>
            obtain ⟨s1, errs1⟩ := q
            rw [hp] at h
            obtain ⟨⟨new1, rfl, hall1⟩, hnm1, hfst1⟩ := (runProcessor_shape m p s errs).2 _ _ hp
            obtain ⟨⟨new2, rfl, hall2⟩, hnm2, hfst2⟩ := (ih s1 (errs ++ new1)).2 _ _ h
            exact ⟨⟨new1 ++ new2, by simp, by simp_all⟩,
              hnm2.trans hnm1, hfst2.trans hfst1⟩

theorem setCol_index (d : Df) (nm : String) (vs : List Value) :
    (d.setCol nm vs).index = d.index := by
  simp only [Df.setCol]
  split <;> rfl

theorem setColAligned_index (d : Df) (nm : String) (vs : List Value) :
    (d.setColAligned nm vs).index = d.index := by
  simp [Df.setColAligned, setCol_index]

/-- Error accumulation and index preservation of the per-column loop. -/
theorem processCols_shape (m : String → String → Bool) (cfs : List ColumnFormat)
    (df : Df) (acc : Df) (errs : List FileFormatError) :
    (∀ msg es, processCols m cfs df acc errs = .inl (msg, es) →
        ∃ new, es = errs ++ new ∧ new.all isProcessorError = true) ∧
    (∀ df2 es, processCols m cfs df acc errs = .inr (df2, es) →
        (∃ new, es = errs ++ new ∧ new.all isProcessorError = true)
        ∧ df2.index = acc.index) := by
  induction cfs generalizing acc errs with
  | nil =>
      constructor
      · intro msg es h; cases h
      · intro df2 es h
        cases h
        exact ⟨⟨[], by simp, rfl⟩, rfl⟩
  | cons cf rest ih =>
      constructor
      · intro msg es h
        simp only [processCols] at h
        cases hg : df.getSeries? cf.label with
        | none => simp only [hg] at h; cases h; exact ⟨[], by simp, rfl⟩
        | some srs =>
            simp only [hg] at h
            cases hp : cf.process m srs errs with
            | inl q =>
                obtain ⟨m2, es2⟩ := q
                rw [hp] at h; cases h
                exact (runProcessors_shape m cf.get_processors srs errs).1 _ _ hp
            | inr q =>
                obtain ⟨s2, errs2⟩ := q
                rw [hp] at h
                obtain ⟨⟨new1, rfl, hall1⟩, _, _⟩ :=
                  (runProcessors_shape m cf.get_processors srs errs).2 _ _ hp
                obtain ⟨new2, rfl, hall2⟩ := (ih _ (errs ++ new1)).1 _ _ h
                exact ⟨new1 ++ new2, by simp, by simp_all⟩
      · intro df2 es h
        simp only [processCols] at h
        cases hg : df.getSeries? cf.label with
        | none => simp only [hg] at h; cases h
        | some srs =>
            simp only [hg] at h
            cases hp : cf.process m srs errs with
            | inl q => obtain ⟨m2, es2⟩ := q; rw [hp] at h; cases h
            | inr q =>
                obtain ⟨s2, errs2⟩ := q
                rw [hp] at h
                obtain ⟨⟨new1, rfl, hall1⟩, _, _⟩ :=
                  (runProcessors_shape m cf.get_processors srs errs).2 _ _ hp
                obtain ⟨⟨new2, rfl, hall2⟩, hidx⟩ := (ih _ (errs ++ new1)).2 _ _ h
                exact ⟨⟨new1 ++ new2, by simp, by simp_all⟩,
                  hidx.trans (setCol_index _ _ _)⟩

/-- Error accumulation of the repeat-column processing list. -/
theorem processRepeatList_shape (m : String → String → Bool) (cf : ColumnFormat)
    (cols : List Series) (errs : List FileFormatError) :
    (∀ msg es, processRepeatList m cf cols errs = .inl (msg, es) →
        ∃ new, es = errs ++ new ∧ new.all isProcessorError = true) ∧
    (∀ cs es, processRepeatList m cf cols errs = .inr (cs, es) →
        ∃ new, es = errs ++ new ∧ new.all isProcessorError = true) := by
  induction cols generalizing errs with
  | nil =>
      constructor
      · intro msg es h; cases h
      · intro cs es h; cases h; exact ⟨[], by simp, rfl⟩
  | cons c rest ih =>
      constructor
      · intro msg es h
        simp only [processRepeatList] at h
        cases hp : cf.process m c errs with
        | inl q =>
            obtain ⟨m2, es2⟩ := q
            simp only [hp] at h; cases h
            exact (runProcessors_shape m cf.get_processors c errs).1 _ _ hp
        | inr q =>
            obtain ⟨c2, errs2⟩ := q
            simp only [hp] at h
            obtain ⟨⟨new1, rfl, hall1⟩, _, _⟩ :=
              (runProcessors_shape m cf.get_processors c errs).2 _ _ hp
            cases hr : processRepeatList m cf rest (errs ++ new1) with
            | inl q2 =>
                obtain ⟨m3, es3⟩ := q2
                simp only [hr] at h; cases h
                obtain ⟨new2, rfl, hall2⟩ := (ih (errs ++ new1)).1 _ _ hr
                exact ⟨new1 ++ new2, by simp, by simp_all⟩
            | inr q2 => obtain ⟨cs2, es2⟩ := q2; simp only [hr] at h; cases h
      · intro cs es h
        simp only [processRepeatList] at h
        cases hp : cf.process m c errs with
        | inl q => obtain ⟨m2, es2⟩ := q; simp only [hp] at h; cases h
        | inr q =>
            obtain ⟨c2, errs2⟩ := q
            simp only [hp] at h
            obtain ⟨⟨new1, rfl, hall1⟩, _, _⟩ :=
              (runProcessors_shape m cf.get_processors c errs).2 _ _ hp
            cases hr : processRepeatList m cf rest (errs ++ new1) with
            | inl q2 => obtain ⟨m3, es3⟩ := q2; simp only [hr] at h; cases h
            | inr q2 =>
                obtain ⟨cs2, es2⟩ := q2
                simp only [hr] at h; cases h
                obtain ⟨new2, rfl, hall2⟩ := (ih (errs ++ new1)).2 _ _ hr
                exact ⟨new1 ++ new2, by simp, by simp_all⟩

/-- Error accumulation of `process_repeat_columns`. -/
theorem process_repeat_columns_shape (m : String → String → Bool) (cf : ColumnFormat)
    (cols : List Series) (errs : List FileFormatError) :
    (∀ msg es, process_repeat_columns m cf cols errs = .inl (msg, es) →
        ∃ new, es = errs ++ new ∧ new.all isProcessorError = true) ∧
    (∀ vals es, process_repeat_columns m cf cols errs = .inr (vals, es) →
        ∃ new, es = errs ++ new ∧ new.all isProcessorError = true) := by
  constructor
  · intro msg es h
    simp only [process_repeat_columns] at h
    cases hl : processRepeatList m cf cols errs with
    | inl q =>
        obtain ⟨m2, es2⟩ := q
        simp only [hl] at h; cases h
        exact (processRepeatList_shape m cf cols errs).1 _ _ hl
    | inr q =>
        obtain ⟨cs, es2⟩ := q
        simp only [hl] at h
        cases hn : notnullRows (zipStar (cs.map Series.values)) with
        | inl e2 =>
            simp only [hn] at h; cases h
            exact (processRepeatList_shape m cf cols errs).2 _ _ hl
        | inr rows => simp only [hn] at h; cases h
  · intro vals es h
    simp only [process_repeat_columns] at h
    cases hl : processRepeatList m cf cols errs with
    | inl q => obtain ⟨m2, es2⟩ := q; simp only [hl] at h; cases h
    | inr q =>
        obtain ⟨cs, es2⟩ := q
        simp only [hl] at h
        cases hn : notnullRows (zipStar (cs.map Series.values)) with
        | inl e2 => simp only [hn] at h; cases h
        | inr rows =>
            simp only [hn] at h; cases h
            exact (processRepeatList_shape m cf cols errs).2 _ _ hl

/-- Error accumulation and index preservation of the whole column
phase (columns plus repeat aggregation). -/
theorem columnPhase_shape (m : String → String → Bool) (ff : FileFormat) (df : Df)
    (errs : List FileFormatError) :
    (∀ msg es, ff.columnPhase m df errs = .inl (msg, es) →
        ∃ new, es = errs ++ new ∧ new.all isProcessorError = true) ∧
    (∀ df2 es, ff.columnPhase m df errs = .inr (df2, es) →
        (∃ new, es = errs ++ new ∧ new.all isProcessorError = true)
        ∧ df2.index = df.index) := by
  constructor
  · intro msg es h
    simp only [FileFormat.columnPhase] at h
    split at h
    · cases h; exact ⟨[], by simp, rfl⟩
    · cases hc : processCols m ff.mainColumnFormats df { index := df.index, cols := [] } errs with
      | inl q =>
          obtain ⟨m2, es2⟩ := q
          simp only [hc] at h; cases h
          exact (processCols_shape m _ df _ errs).1 _ _ hc
      | inr q =>
          obtain ⟨df2a, errs2⟩ := q
          simp only [hc] at h
          obtain ⟨⟨new1, rfl, hall1⟩, hidx1⟩ := (processCols_shape m _ df _ errs).2 _ _ hc
          split at h
          · simp only [FileFormat.repeatPhase] at h
            cases hg : ff.columns.getLast? with
            | none => simp only [hg] at h; cases h; exact ⟨new1, rfl, hall1⟩
            | some rcf =>
                simp only [hg] at h
                cases hr : process_repeat_columns m rcf
                    ((df.labels.drop ff.mainColumnFormats.length).map (fun nm =>
                      (df.getSeries? nm).getD { name := nm, items := [] }))
                    (errs ++ new1) with
                | inl q2 =>
                    obtain ⟨m3, es3⟩ := q2
                    simp only [hr] at h; cases h
                    obtain ⟨new2, rfl, hall2⟩ :=
                      (process_repeat_columns_shape m rcf _ _).1 _ _ hr
                    exact ⟨new1 ++ new2, by simp, by simp_all⟩
                | inr q2 => obtain ⟨vals, es3⟩ := q2; simp only [hr] at h; cases h
          · cases h
  · intro df2 es h
    simp only [FileFormat.columnPhase] at h
    split at h
    · cases h
    · cases hc : processCols m ff.mainColumnFormats df { index := df.index, cols := [] } errs with
      | inl q => obtain ⟨m2, es2⟩ := q; simp only [hc] at h; cases h
      | inr q =>
          obtain ⟨df2a, errs2⟩ := q
          simp only [hc] at h
          obtain ⟨⟨new1, rfl, hall1⟩, hidx1⟩ := (processCols_shape m _ df _ errs).2 _ _ hc
          split at h
          · simp only [FileFormat.repeatPhase] at h
            cases hg : ff.columns.getLast? with
            | none => simp only [hg] at h; cases h
            | some rcf =>
                simp only [hg] at h
                cases hr : process_repeat_columns m rcf
                    ((df.labels.drop ff.mainColumnFormats.length).map (fun nm =>
                      (df.getSeries? nm).getD { name := nm, items := [] }))
                    (errs ++ new1) with
                | inl q2 => obtain ⟨m3, es3⟩ := q2; simp only [hr] at h; cases h
                | inr q2 =>
                    obtain ⟨vals, es3⟩ := q2
                    simp only [hr] at h; cases h
                    obtain ⟨new2, rfl, hall2⟩ :=
                      (process_repeat_columns_shape m rcf _ _).2 _ _ hr
                    exact ⟨⟨new1 ++ new2, by simp, by simp_all⟩,
                      (setColAligned_index _ _ _).trans hidx1⟩
          · cases h
            exact ⟨⟨new1, rfl, hall1⟩, hidx1⟩

/-- No validators, no validator errors. -/
theorem runValidators_nil (df2 : Df) : runValidators [] df2 = [] := by
  simp [runValidators]

/-- Inversion of a successful `_process` run: either the structural
checks failed and the run was immediately REJECTED with just those
errors, or they passed and the run went through the column phase,
validators and the rejection decision. -/
theorem processE_inr_cases (m : String → String → Bool) (ff : FileFormat) (df : Df)
    (r0 r : FileFormatReport) (h : ff.processE m df r0 = .inr r) :
    (r0.errors ++ structuralErrors ff df ≠ []
      ∧ r = { r0 with
                errors := r0.errors ++ structuralErrors ff df,
                status := .REJECTED })
    ∨ (∃ df2b errs3,
        r0.errors ++ structuralErrors ff df = []
        ∧ ff.columnPhase m df (r0.errors ++ structuralErrors ff df) = .inr (df2b, errs3)
        ∧ ((¬(errs3 ++ runValidators ff.options.validators df2b = [])
              ∧ ff.options.on_error = some "reject-file"
              ∧ r = { r0 with
                        errors := errs3 ++ runValidators ff.options.validators df2b,
                        status := .REJECTED })
          ∨ (¬(¬(errs3 ++ runValidators ff.options.validators df2b = [])
                ∧ ff.options.on_error = some "reject-file")
              ∧ r = { r0 with
                        errors := errs3 ++ runValidators ff.options.validators df2b,
                        df := some (df2b.filterRows (fun L =>
                          !(hasRowError (errs3 ++ runValidators ff.options.validators df2b) L))) }))) := by
  simp only [FileFormat.processE] at h
  split at h
  · rename_i hemp
    cases hcp : ff.columnPhase m df (r0.errors ++ structuralErrors ff df) with
    | inl q =>
        obtain ⟨m2, es2⟩ := q
        simp only [hcp] at h
        cases h
    | inr q =>
        obtain ⟨df2b, errs3⟩ := q
        simp only [hcp] at h
        split at h
        · rename_i hcond
          cases h
          exact .inr ⟨df2b, errs3, hemp, rfl, .inl ⟨hcond.1, hcond.2, rfl⟩⟩
        · rename_i hcond
          cases h
          exact .inr ⟨df2b, errs3, hemp, rfl, .inr ⟨hcond, rfl⟩⟩
  · rename_i hemp
    cases h
    exact .inl ⟨hemp, rfl⟩

/-- Inversion of a raising `_process` run: the structural checks had
passed and the exception escaped the column phase, with the report
carrying the errors appended before the raise (and `df`, `status`,
`filename`, `total_rows` untouched). -/
theorem processE_inl_cases (m : String → String → Bool) (ff : FileFormat) (df : Df)
    (r0 : FileFormatReport) (msg : String) (r' : FileFormatReport)
    (h : ff.processE m df r0 = .inl (msg, r')) :
    r0.errors ++ structuralErrors ff df = []
    ∧ ∃ es, ff.columnPhase m df (r0.errors ++ structuralErrors ff df) = .inl (msg, es)
        ∧ r' = { r0 with errors := es } := by
  simp only [FileFormat.processE] at h
  split at h
  · rename_i hemp
    cases hcp : ff.columnPhase m df (r0.errors ++ structuralErrors ff df) with
    | inl q =>
        obtain ⟨m2, es2⟩ := q
        simp only [hcp] at h
        cases h
        exact ⟨hemp, es2, rfl, rfl⟩
    | inr q =>
        obtain ⟨df2b, errs3⟩ := q
        simp only [hcp] at h
        split at h <;> cases h
  · cases h

/-! ### Claim C3 -/

/-- C3: with no structural errors, no `reject-file` option and no
internal exception, the cleaned table of the final report keeps exactly
the input rows whose index is referenced by no ROW-level error of the
report, whichever processor or validator produced it. -/
theorem C3_cleaned_table_excludes_error_rows (m : String → String → Bool)
    (ff : FileFormat) (df : Df) (r : FileFormatReport)
    (hs : structuralErrors ff df = [])
    (hoe : ff.options.on_error ≠ some "reject-file")
    (hrun : ff.processE m df { total_rows := df.nrows } = .inr r) :
    ∃ dfc, r.df = some dfc
      ∧ dfc.index = df.index.filter (fun L => !(hasRowError r.errors L)) := by
  rcases processE_inr_cases m ff df _ r hrun with ⟨hne, _⟩ | ⟨df2b, errs3, _, hcp, hfin⟩
  · exact absurd (by simp [hs]) hne
  · rcases hfin with ⟨_, hreject, _⟩ | ⟨_, hr⟩
    · exact absurd hreject hoe
    · subst hr
      refine ⟨_, rfl, ?_⟩
      have hidx : df2b.index = df.index :=
        ((columnPhase_shape m ff df _).2 _ _ hcp).2
      simp [Df.filterRows, hidx]

/-- Witness for C3: one required INTEGER column over two rows, the
second failing conversion; the cleaned table keeps exactly row 0. -/
theorem C3_cleaned_table_excludes_error_rows_witness :
    structuralErrors ffA dfA2 = []
    ∧ ffA.options.on_error ≠ some "reject-file"
    ∧ FileFormat.processE matchAll ffA dfA2 { total_rows := 2 } = .inr rA2
    ∧ ∃ dfc, rA2.df = some dfc
        ∧ dfc.index = dfA2.index.filter (fun L => !(hasRowError rA2.errors L)) := by
  refine ⟨by decide, by decide, by decide, ?_⟩
  exact C3_cleaned_table_excludes_error_rows matchAll ffA dfA2 rA2
    (by decide) (by decide) (by decide)

/-! ### Claim C1 (corrected): `reject-file` rejects but discards df -/

/-- Counterexample to C1 as stated: with `on_error = "reject-file"` and
a row-level error present (and no structural error), the report is
REJECTED but its `df` is `None` — the cleaned table is *not* populated
(`_process` returns `report.with_status(REJECTED)` without
`with_df`). -/
theorem C1_counterexample :
    ffA_reject.options.on_error = some "reject-file"
    ∧ (∃ e ∈ (FileFormat.process_data matchAll ffA_reject dfA2).errors,
        e.error_level = .ROW)
    ∧ (FileFormat.process_data matchAll ffA_reject dfA2).status = .REJECTED
    ∧ (FileFormat.process_data matchAll ffA_reject dfA2).df = none := by
  decide

/-- C1 amended: with `on_error = "reject-file"`, any run whose report
contains a row-level error ends REJECTED with `df` left unset (`None`):
the processed table is discarded rather than populated. -/
theorem C1_reject_file_discards_df (m : String → String → Bool) (ff : FileFormat)
    (df : Df)
    (hoe : ff.options.on_error = some "reject-file")
    (hrow : ∃ e ∈ (ff.process_data m df).errors, e.error_level = .ROW) :
    (ff.process_data m df).status = .REJECTED ∧ (ff.process_data m df).df = none := by
  simp only [FileFormat.process_data] at hrow ⊢
  cases hrun : ff.processE m df { total_rows := df.nrows } with
  | inl q =>
      obtain ⟨msg, r'⟩ := q
      obtain ⟨_, es, _, hr'⟩ := processE_inl_cases m ff df _ msg r' hrun
      subst hr'
      simp [hrun]
  | inr r =>
      simp only [hrun] at hrow ⊢
      rcases processE_inr_cases m ff df _ r hrun with ⟨_, hr⟩ | ⟨df2b, errs3, _, _, hfin⟩
      · subst hr; exact ⟨rfl, rfl⟩
      · rcases hfin with ⟨_, _, hr⟩ | ⟨hcond, hr⟩
        · subst hr; exact ⟨rfl, rfl⟩
        · exfalso
          rw [not_and_or, not_not] at hcond
          rcases hcond with hne | hne
          · subst hr
            obtain ⟨e, he, _⟩ := hrow
            rw [hne] at he
            cases he
          · exact hne hoe

/-- Witness for the amended C1 at the concrete reject-file format. -/
theorem C1_reject_file_discards_df_witness :
    ffA_reject.options.on_error = some "reject-file"
    ∧ (∃ e ∈ (FileFormat.process_data matchAll ffA_reject dfA2).errors,
        e.error_level = .ROW)
    ∧ ((FileFormat.process_data matchAll ffA_reject dfA2).status = .REJECTED
      ∧ (FileFormat.process_data matchAll ffA_reject dfA2).df = none) := by
  refine ⟨rfl, by decide, ?_⟩
  exact C1_reject_file_discards_df matchAll ffA_reject dfA2 rfl (by decide)

/-! ### Claim C2 (corrected): when is the additional-columns check
performed? -/

theorem isProcessorError_code (e : FileFormatError)
    (h : isProcessorError e = true) : e.error_code ≠ "found_unexpected_columms" := by
  simp only [isProcessorError, Bool.and_eq_true, Bool.or_eq_true, beq_iff_eq] at h
  rcases h.2 with ((((hc | hc) | hc) | hc) | hc) <;> simp [hc]

theorem ensure_code (df : Df) (expected : List String) (e : FileFormatError)
    (h : e ∈ ensure_expected_columns df expected) :
    e.error_code = "columns_missing" := by
  simp only [ensure_expected_columns] at h
  split at h
  · simp only [List.mem_singleton] at h
    simp [h, mkFileError]
  · cases h

/-- Counterexample to C2 as stated: with only `ignore_additional_columns`
set (and `repeat_last_column` unset), the claim asserts unexpected
labels are still reported; in fact an input with an extra column
produces no error at all (and in particular no
`found_unexpected_columms`). -/
theorem C2_counterexample :
    ffA_ignore.options.ignore_additional_columns = true
    ∧ ffA_ignore.options.repeat_last_column = false
    ∧ dfExtra.labels = ["a", "zz"]
    ∧ (ffA_ignore.columns.map ColumnFormat.label) = ["a"]
    ∧ (FileFormat.process_data matchAll ffA_ignore dfExtra).errors = [] := by
  decide

/-- C2 amended: the additional-columns check runs iff *neither*
`ignore_additional_columns` *nor* `repeat_last_column` is set (the
source skips it when either option is set).  When it runs and extra
labels exist, one FILE `found_unexpected_columms` error is reported and
the run is REJECTED; when either option is set (and no custom
validators run), no `found_unexpected_columms` error can appear at
all. -/
theorem C2_additional_columns_check (m : String → String → Bool) (ff : FileFormat)
    (df : Df) (hv : ff.options.validators = []) :
    ((ff.options.ignore_additional_columns = false
        ∧ ff.options.repeat_last_column = false
        ∧ df.labels.filter
            (fun c => !((ff.columns.map ColumnFormat.label).any (fun e => e == c))) ≠ [])
      → (∃ e ∈ (ff.process_data m df).errors,
            e.error_code = "found_unexpected_columms" ∧ e.error_level = .FILE)
        ∧ (ff.process_data m df).status = .REJECTED)
    ∧ ((ff.options.ignore_additional_columns = true ∨ ff.options.repeat_last_column = true)
      → ∀ e ∈ (ff.process_data m df).errors, e.error_code ≠ "found_unexpected_columms") := by
  constructor
  · rintro ⟨hig, hrep, hextra⟩
    have hcheck : check_additional_columns df (ff.columns.map ColumnFormat.label) =
        [mkFileError "found_unexpected_columms"
          ("Found unexpected additional columns: " ++ String.intercalate ", "
            (df.labels.filter
              (fun c => !((ff.columns.map ColumnFormat.label).any (fun e => e == c)))))] := by
      simp only [check_additional_columns]
      rw [if_pos hextra]
    have hstruct : ∃ tail, structuralErrors ff df =
        mkFileError "found_unexpected_columms"
          ("Found unexpected additional columns: " ++ String.intercalate ", "
            (df.labels.filter
              (fun c => !((ff.columns.map ColumnFormat.label).any (fun e => e == c)))))
          :: tail := by
      refine ⟨ensure_expected_columns df (ff.columns.map ColumnFormat.label), ?_⟩
      simp only [structuralErrors, hig, hrep, Bool.not_false, Bool.and_self, if_pos, hcheck]
      rfl
    obtain ⟨tail, hstruct⟩ := hstruct
    simp only [FileFormat.process_data]
    cases hrun : ff.processE m df { total_rows := df.nrows } with
    | inl q =>
        obtain ⟨msg, r'⟩ := q
        exfalso
        obtain ⟨hemp, _⟩ := processE_inl_cases m ff df _ msg r' hrun
        rw [hstruct] at hemp
        cases hemp
    | inr r =>
        rcases processE_inr_cases m ff df _ r hrun with ⟨_, hr⟩ | ⟨df2b, errs3, hemp, _, _⟩
        · subst hr
          constructor
          · refine ⟨mkFileError "found_unexpected_columms"
              ("Found unexpected additional columns: " ++ String.intercalate ", "
                (df.labels.filter
                  (fun c => !((ff.columns.map ColumnFormat.label).any (fun e => e == c))))),
              ?_, rfl, rfl⟩
            simp [hstruct]
          · rfl
        · exfalso
          rw [hstruct] at hemp
          simp at hemp
  · intro hopt e he
    have hstruct : structuralErrors ff df =
        ensure_expected_columns df (ff.columns.map ColumnFormat.label) := by
      simp only [structuralErrors]
      rcases hopt with h1 | h1 <;> rw [h1] <;> simp
    simp only [FileFormat.process_data] at he
    cases hrun : ff.processE m df { total_rows := df.nrows } with
    | inl q =>
        obtain ⟨msg, r'⟩ := q
        rw [hrun] at he
        obtain ⟨hemp, es, hcp, hr'⟩ := processE_inl_cases m ff df _ msg r' hrun
        subst hr'
        simp only [List.mem_append] at he
        rcases he with he | he
        · obtain ⟨new, hnew, hall⟩ := (columnPhase_shape m ff df _).1 _ _ hcp
          rw [hnew, hemp, List.nil_append] at he
          exact isProcessorError_code e (List.all_eq_true.mp hall e he)
        · simp only [List.mem_singleton] at he
          rw [he]
          simp [mkFileError]
    | inr r =>
        rw [hrun] at he
        rcases processE_inr_cases m ff df _ r hrun
          with ⟨_, hr⟩ | ⟨df2b, errs3, hemp, hcp, hfin⟩
        · subst hr
          have : e ∈ structuralErrors ff df := by simpa using he
          rw [hstruct] at this
          rw [ensure_code df _ e this]
          simp
        · have herrs : ∀ x ∈ errs3 ++ runValidators ff.options.validators df2b,
              x.error_code ≠ "found_unexpected_columms" := by
            intro x hx
            obtain ⟨new, hnew, hall⟩ := ((columnPhase_shape m ff df _).2 _ _ hcp).1
            rw [hv, runValidators_nil, List.append_nil, hnew, hemp, List.nil_append] at hx
            exact isProcessorError_code x (List.all_eq_true.mp hall x hx)
          rcases hfin with ⟨_, _, hr⟩ | ⟨_, hr⟩ <;> subst hr <;> exact herrs e he


/-- Witness for the amended C2 at a format with neither option set and
an input with an extra column. -/
theorem C2_additional_columns_check_witness :
    ffA.options.validators = []
    ∧ (((ffA.options.ignore_additional_columns = false
          ∧ ffA.options.repeat_last_column = false
          ∧ dfExtra.labels.filter
              (fun c => !((ffA.columns.map ColumnFormat.label).any (fun e => e == c))) ≠ [])
        → (∃ e ∈ (FileFormat.process_data matchAll ffA dfExtra).errors,
              e.error_code = "found_unexpected_columms" ∧ e.error_level = .FILE)
          ∧ (FileFormat.process_data matchAll ffA dfExtra).status = .REJECTED)
      ∧ ((ffA.options.ignore_additional_columns = true
            ∨ ffA.options.repeat_last_column = true)
        → ∀ e ∈ (FileFormat.process_data matchAll ffA dfExtra).errors,
            e.error_code ≠ "found_unexpected_columms")) :=
  ⟨rfl, C2_additional_columns_check matchAll ffA dfExtra rfl⟩


/-! ### Claim C8: OptionsProcessor -/

/-- Every error the options loop appends for a cell carries that
cell's row index. -/
theorem optionsCell_row_index (options : List String) (colname : String)
    (iv : Nat × Value) (e : FileFormatError)
    (he : e ∈ cellOut (optionsCell options colname iv)) :
    e.row_index = some iv.1 := by
  simp only [optionsCell] at he
  split at he
  · cases he
  · split at he
    · cases he
    · simp only [cellOut] at he
      split at he
      · cases he
      · simp only [List.mem_singleton] at he
        rw [he]
        rfl

/-- Filtering a per-cell error concatenation down to one row index
recovers exactly that cell's errors, provided indices are distinct. -/
theorem flatMap_filter_row_index (items : List (Nat × Value))
    (g : Nat × Value → List FileFormatError)
    (hg : ∀ iv e, e ∈ g iv → e.row_index = some iv.1)
    (hidx : (items.map Prod.fst).Nodup) :
    ∀ iv ∈ items,
      (items.flatMap g).filter (fun e => e.row_index == some iv.1) = g iv := by
  induction items with
  | nil => intro iv h; cases h
  | cons jv rest ih =>
      intro iv hmem
      simp only [List.map_cons, List.nodup_cons] at hidx
      obtain ⟨hnotin, hnd⟩ := hidx
      simp only [List.flatMap_cons, List.filter_append]
      rcases List.mem_cons.mp hmem with rfl | hmem2
      · have h1 : (g iv).filter (fun e => e.row_index == some iv.1) = g iv := by
          rw [List.filter_eq_self]
          intro e he
          simp [hg iv e he]
        have h2 : (rest.flatMap g).filter (fun e => e.row_index == some iv.1) = [] := by
          rw [List.filter_eq_nil_iff]
          intro e he
          obtain ⟨kv, hk, hek⟩ := List.mem_flatMap.mp he
          rw [hg kv e hek]
          simp only [Option.some.injEq, beq_iff_eq]
          intro hkk
          exact hnotin (hkk ▸ List.mem_map_of_mem Prod.fst hk)
        rw [h1, h2, List.append_nil]
      · have hne : jv.1 ≠ iv.1 := by
          intro hq
          exact hnotin (hq ▸ List.mem_map_of_mem Prod.fst hmem2)
        have h1 : (g jv).filter (fun e => e.row_index == some iv.1) = [] := by
          rw [List.filter_eq_nil_iff]
          intro e he
          rw [hg jv e he]
          simp [hne]
        rw [h1, List.nil_append]
        exact ih hnd iv hmem2

/-- C8: for a column with an options set (over cells that are not
`pd.NA`, which cannot reach this processor from string input), each
`None` or empty-string cell produces no error regardless of
membership; each other cell whose value is not a member of the options
produces exactly one ROW `invalid_value` error at that cell's row
index; and the column is returned unchanged. -/
theorem C8_options_skips_null_flags_nonmembers (m : String → String → Bool)
    (options : List String) (s : Series)
    (hna : ∀ iv ∈ s.items, iv.2 ≠ Value.na)
    (hidx : (s.items.map Prod.fst).Nodup) :
    ∃ errs,
      runProcessor m (.optionsP options) s [] = .inr (s, errs)
      ∧ (∀ iv ∈ s.items, (iv.2 = Value.pynone ∨ iv.2 = Value.str "") →
          errs.filter (fun e => e.row_index == some iv.1) = [])
      ∧ (∀ iv ∈ s.items, iv.2 ≠ Value.pynone → iv.2 ≠ Value.str "" →
          optionsMember iv.2 options = false →
          errs.filter (fun e => e.row_index == some iv.1) =
            [mkRowError "invalid_value"
              ("The value is not one of the allowed options: " ++ pyRepr iv.2)
              iv.1 s.name iv.2]) := by
  have hok : ∀ iv ∈ s.items, ∃ l, optionsCell options s.name iv = .inr l := by
    intro iv hmem
    simp only [optionsCell]
    split
    · exact ⟨[], rfl⟩
    · rename_i hskip
      have : ¬(iv.2 == Value.na) = true := by
        simp only [beq_iff_eq]
        exact hna iv hmem
      rw [if_neg this]
      exact ⟨_, rfl⟩
  have hscan := cellScan_ok (optionsCell options s.name) s.items hok
  refine ⟨s.items.flatMap (fun iv => cellOut (optionsCell options s.name iv)), ?_, ?_, ?_⟩
  · simp [runProcessor, OptionsProcessor.process, hscan]
  · intro iv hmem hskip
    have := flatMap_filter_row_index s.items
      (fun iv => cellOut (optionsCell options s.name iv))
      (fun iv e he => optionsCell_row_index options s.name iv e he) hidx iv hmem
    rw [this]
    rcases hskip with h | h <;>
      simp [optionsCell, h, cellOut]
  · intro iv hmem h1 h2 h3
    have := flatMap_filter_row_index s.items
      (fun iv => cellOut (optionsCell options s.name iv))
      (fun iv e he => optionsCell_row_index options s.name iv e he) hidx iv hmem
    rw [this]
    have hskip : ¬(iv.2 == Value.pynone || iv.2 == Value.str "") = true := by
      simp [h1, h2]
    have hnab : ¬(iv.2 == Value.na) = true := by
      simp only [beq_iff_eq]
      exact hna iv hmem
    simp [optionsCell, hskip, hnab, h3, cellOut]

/-- Witness for C8 at a concrete column: `Yes` is a member, `None` and
`""` are skipped, `MayBe` and `NaN` are flagged. -/
theorem C8_options_skips_null_flags_nonmembers_witness :
    (∀ iv ∈ sOpts.items, iv.2 ≠ Value.na)
    ∧ (sOpts.items.map Prod.fst).Nodup
    ∧ ∃ errs,
        runProcessor matchAll (.optionsP ["Yes", "No"]) sOpts [] = .inr (sOpts, errs)
        ∧ (∀ iv ∈ sOpts.items, (iv.2 = Value.pynone ∨ iv.2 = Value.str "") →
            errs.filter (fun e => e.row_index == some iv.1) = [])
        ∧ (∀ iv ∈ sOpts.items, iv.2 ≠ Value.pynone → iv.2 ≠ Value.str "" →
            optionsMember iv.2 ["Yes", "No"] = false →
            errs.filter (fun e => e.row_index == some iv.1) =
              [mkRowError "invalid_value"
                ("The value is not one of the allowed options: " ++ pyRepr iv.2)
                iv.1 sOpts.name iv.2]) := by
  refine ⟨by decide, by decide, ?_⟩
  exact C8_options_skips_null_flags_nonmembers matchAll ["Yes", "No"] sOpts
    (by decide) (by decide)

/-! ### Claim C4: repeat columns -/

/-- With no ROW-level errors, no row is rejected. -/
theorem hasRowError_false (errs : List FileFormatError)
    (h : ∀ e ∈ errs, e.error_level ≠ .ROW) (L : Nat) : hasRowError errs L = false := by
  rw [hasRowError, List.any_eq_false]
  intro e he
  simp only [Bool.and_eq_true, beq_iff_eq, not_and]
  intro hl
  exact absurd hl (h e he)

/-- `find?` over a label-replacing map finds the replacement. -/
theorem find?_replace (cols : List (String × List Value)) (nm : String) (vs : List Value)
    (hany : cols.any (fun c => c.1 == nm) = true) :
    (cols.map (fun c => if c.1 == nm then (nm, vs) else c)).find?
      (fun c => c.1 == nm) = some (nm, vs) := by
  induction cols with
  | nil => cases hany
  | cons c0 rest ih =>
      simp only [List.map_cons]
      by_cases h0 : (c0.1 == nm) = true
      · rw [if_pos h0]
        rw [List.find?_cons_of_pos _ (by simp)]
      · rw [if_neg h0]
        rw [List.find?_cons_of_neg _ (by simp [h0])]
        simp only [List.any_cons, h0, Bool.false_or] at hany
        exact ih hany

/-- `find?` over an append whose left part has no match finds the
appended column. -/
theorem find?_append_single (cols : List (String × List Value)) (nm : String)
    (vs : List Value) (hnone : cols.any (fun c => c.1 == nm) = false) :
    (cols ++ [(nm, vs)]).find? (fun c => c.1 == nm) = some (nm, vs) := by
  induction cols with
  | nil => simp [List.find?_cons_of_pos]
  | cons c0 rest ih =>
      simp only [List.any_cons, Bool.or_eq_false_iff] at hnone
      rw [List.cons_append, List.find?_cons_of_neg _ (by simp [hnone.1])]
      exact ih hnone.2

/-- Looking up the column just written by `setCol`. -/
theorem getCol?_setCol (d : Df) (nm : String) (vs : List Value) :
    (d.setCol nm vs).getCol? nm = some vs := by
  simp only [Df.setCol, Df.getCol?]
  split
  · rename_i hany
    rw [find?_replace d.cols nm vs hany]
    rfl
  · rename_i hany
    rw [find?_append_single d.cols nm vs (Bool.eq_false_iff.mpr hany)]
    rfl

/-- Row filtering acts column-wise under label lookup. -/
theorem getCol?_filterRows (d : Df) (keep : Nat → Bool) (nm : String) :
    (d.filterRows keep).getCol? nm =
      (d.getCol? nm).map (fun col =>
        ((d.index.zip col).filter (fun p => keep p.1)).map Prod.snd) := by
  simp only [Df.filterRows, Df.getCol?]
  induction d.cols with
  | nil => rfl
  | cons c0 rest ih =>
      simp only [List.map_cons]
      by_cases h0 : (c0.1 == nm) = true
      · simp [List.find?, h0]
      · simp [List.find?, h0]
        simpa using ih

/-- In a list of labelled columns with distinct labels, `find?` by a
member's label gives that member. -/
theorem find?_label_nodup (cols : List (String × List Value))
    (hnd : (cols.map Prod.fst).Nodup) (c : String × List Value) (hc : c ∈ cols) :
    cols.find? (fun x => x.1 == c.1) = some c := by
  induction cols with
  | nil => cases hc
  | cons c0 rest ih =>
      simp only [List.map_cons, List.nodup_cons] at hnd
      rcases List.mem_cons.mp hc with rfl | hc2
      · rw [List.find?_cons_of_pos _ (by simp)]
      · have hne : (c0.1 == c.1) = false := by
          rw [beq_eq_false_iff_ne]
          intro hq
          exact hnd.1 (hq ▸ List.mem_map_of_mem Prod.fst hc2)
        rw [List.find?_cons_of_neg _ (by simp [hne])]
        exact ih hnd.2 hc2

/-- In a frame with distinct column labels, looking a column up by its
own label gives exactly that column. -/
theorem getSeries?_of_nodup (d : Df) (hnd : d.labels.Nodup) (c : String × List Value)
    (hc : c ∈ d.cols) :
    d.getSeries? c.1 = some { name := c.1, items := d.index.zip c.2 } := by
  simp only [Df.getSeries?]
  rw [find?_label_nodup d.cols hnd c hc]
  rfl

/-- The label slice used by the repeat phase resolves, in a frame with
distinct labels, to exactly the positional trailing slice of the
frame's columns. -/
theorem repeat_slice_positional (d : Df) (hnd : d.labels.Nodup) (k : Nat) :
    (d.labels.drop k).map (fun nm =>
        (d.getSeries? nm).getD { name := nm, items := [] }) =
      (d.cols.drop k).map (fun c => { name := c.1, items := d.index.zip c.2 }) := by
  have hlab : d.labels.drop k = (d.cols.drop k).map Prod.fst := by
    simp [Df.labels, List.map_drop]
  rw [hlab, List.map_map]
  apply List.map_congr_left
  intro c hc
  have hc2 : c ∈ d.cols := List.mem_of_mem_drop hc
  simp [Function.comp, getSeries?_of_nodup d hnd c hc2]

/-- Row access into `zip(*cols)` for equal-length columns. -/
theorem zipStar_spec (cols : List (List Value)) (n : Nat)
    (hall : ∀ c ∈ cols, c.length = n) (hne : cols ≠ []) :
    (zipStar cols).length = n
    ∧ ∀ j, j < n → (zipStar cols).getD j [] = cols.map (fun c => c.getD j .nan) := by
  have hmin : ((cols.map List.length).min?).getD 0 = n := by
    cases hm : (cols.map List.length).min? with
    | none =>
        rw [List.min?_eq_none_iff, List.map_eq_nil_iff] at hm
        exact absurd hm hne
    | some v =>
        have hv : v ∈ cols.map List.length :=
          List.min?_mem (fun a b => min_choice a b) hm
        obtain ⟨c, hc, rfl⟩ := List.mem_map.mp hv
        simp [hall c hc]
  cases cols with
  | nil => exact absurd rfl hne
  | cons c0 rest =>
      constructor
      · show (zipStar (c0 :: rest)).length = n
        simp only [zipStar]
        rw [hmin]
        simp
      · intro j hj
        simp only [zipStar]
        rw [hmin]
        rw [List.getD_eq_getElem?_getD, List.getElem?_map]
        simp [List.getElem?_range hj]

/-- A successful `notnull` row filter keeps exactly the truthy values,
in order. -/
theorem notnullRow_ok (row : List Value) (l : List Value) (h : notnullRow row = .inr l) :
    l = row.filter (fun v => pyTruthy v) := by
  induction row generalizing l with
  | nil => cases h; rfl
  | cons v rest ih =>
      simp only [notnullRow] at h
      split at h
      · cases h
      · cases hr : notnullRow rest with
        | inl e => rw [hr] at h; cases h
        | inr l2 =>
            rw [hr] at h
            cases h
            rw [List.filter_cons]
            split
            · rw [ih l2 hr]
            · rw [ih l2 hr]

/-- A successful `notnull` pass maps the row filter across all rows. -/
theorem notnullRows_ok (rows : List (List Value)) (out : List (List Value))
    (h : notnullRows rows = .inr out) :
    out = rows.map (fun row => row.filter (fun v => pyTruthy v)) := by
  induction rows generalizing out with
  | nil => cases h; rfl
  | cons r rest ih =>
      simp only [notnullRows] at h
      cases hr : notnullRow r with
      | inl e => rw [hr] at h; cases h
      | inr r2 =>
          rw [hr] at h
          cases hrest : notnullRows rest with
          | inl e => rw [hrest] at h; cases h
          | inr l2 =>
              rw [hrest] at h
              cases h
              rw [List.map_cons, ih l2 hrest, notnullRow_ok r r2 hr]

/-- The repeat list preserves, column by column, the series name and
row labels. -/
theorem processRepeatList_forall₂ (m : String → String → Bool) (cf : ColumnFormat)
    (cols cs : List Series) (errs es : List FileFormatError)
    (h : processRepeatList m cf cols errs = .inr (cs, es)) :
    List.Forall₂ (fun (out inp : Series) =>
      out.name = inp.name ∧ out.items.map Prod.fst = inp.items.map Prod.fst) cs cols := by
  induction cols generalizing cs errs es with
  | nil => cases h; exact .nil
  | cons c rest ih =>
      simp only [processRepeatList] at h
      cases hp : cf.process m c errs with
      | inl q => obtain ⟨m2, es2⟩ := q; rw [hp] at h; cases h
      | inr q =>
          obtain ⟨c2, errs2⟩ := q
          simp only [hp] at h
          cases hr : processRepeatList m cf rest errs2 with
          | inl q2 => obtain ⟨m3, es3⟩ := q2; rw [hr] at h; cases h
          | inr q2 =>
              obtain ⟨cs2, esX⟩ := q2
              rw [hr] at h
              cases h
              obtain ⟨_, hnm, hfst⟩ :=
                (runProcessors_shape m cf.get_processors c errs).2 _ _ hp
              exact .cons ⟨hnm, hfst⟩ (ih _ _ _ hr)

/-- Keeping every row restores the column. -/
theorem zip_filter_true_snd (idx : List Nat) (col : List Value) (keep : Nat → Bool)
    (hkeep : ∀ L, keep L = true) (hlen : col.length ≤ idx.length) :
    ((idx.zip col).filter (fun p => keep p.1)).map Prod.snd = col := by
  have hfil : (idx.zip col).filter (fun p => keep p.1) = idx.zip col :=
    List.filter_eq_self.mpr (fun p _ => hkeep p.1)
  rw [hfil]
  exact List.map_snd_zip idx col hlen

/-- Inversion of the column phase when `repeat_last_column` is set. -/
theorem columnPhase_repeat_inr (m : String → String → Bool) (ff : FileFormat) (df : Df)
    (errs : List FileFormatError) (df2b : Df) (errs3 : List FileFormatError)
    (hrep : ff.options.repeat_last_column = true)
    (h : ff.columnPhase m df errs = .inr (df2b, errs3)) :
    ∃ df2a errs2 rcf vals,
      ff.columns.getLast? = some rcf
      ∧ processCols m ff.mainColumnFormats df { index := df.index, cols := [] } errs
          = .inr (df2a, errs2)
      ∧ process_repeat_columns m rcf
          ((df.labels.drop ff.mainColumnFormats.length).map (fun nm =>
            (df.getSeries? nm).getD { name := nm, items := [] })) errs2
          = .inr (vals, errs3)
      ∧ df2b = df2a.setColAligned rcf.name vals := by
  simp only [FileFormat.columnPhase, hrep, if_true, true_and] at h
  split at h
  · cases h
  · cases hc : processCols m ff.mainColumnFormats df
        { index := df.index, cols := [] } errs with
    | inl q => obtain ⟨m2, es2⟩ := q; simp only [hc] at h; cases h
    | inr q =>
        obtain ⟨df2a, errs2⟩ := q
        simp only [hc, FileFormat.repeatPhase] at h
        cases hg : ff.columns.getLast? with
        | none => simp only [hg] at h; cases h
        | some rcf =>
            simp only [hg] at h
            cases hr : process_repeat_columns m rcf
                ((df.labels.drop ff.mainColumnFormats.length).map (fun nm =>
                  (df.getSeries? nm).getD { name := nm, items := [] })) errs2 with
            | inl q2 => obtain ⟨m3, es3⟩ := q2; simp only [hr] at h; cases h
            | inr q2 =>
                obtain ⟨vals, esX⟩ := q2
                simp only [hr] at h
                cases h
                exact ⟨df2a, errs2, rcf, vals, rfl, rfl, hr, rfl⟩

/-- Counterexample to C4 as stated: declared columns `a`, `b` with
`repeat_last_column`; raw columns `a`, `b`, `x`.  The claim predicts
the repeat group is exactly the columns beyond the declared set
(`x`, value `"0"` → `0`), kept because `0` is non-null, giving
`b = [0]`.  The code instead slices positionally from the last
declared column (`b`, `x`), and its combiner drops the falsy `0`, so
the output is `b = [2]`. -/
theorem C4_counterexample :
    ffRep.options.repeat_last_column = true
    ∧ (FileFormat.process_data matchAll ffRep dfRep).errors = []
    ∧ (FileFormat.process_data matchAll ffRep dfRep).df =
        some { index := [0], cols := [("a", [.intv 1]), ("b", [.listv [.intv 2]])] } := by
  decide

/-- C4 amended: with `repeat_last_column`, the columns run through the
last declared column's chain are the frame's *positional* trailing
slice starting at position `len(columns) - 1` (so the raw column in
the last declared column's position is included, whatever the labels),
and the output cell for the last column's name in each row is the list
of that row's *truthy* values across those processed columns in column
order — falsy values such as `0`, `0.0`, empty strings and `None` are
dropped, while float `NaN`s are truthy and kept (the `is np.nan`
identity test of the source never fires on the dtype-coerced processed
columns). -/
theorem C4_repeat_positional_truthy (m : String → String → Bool) (ff : FileFormat)
    (df : Df) (r : FileFormatReport) (rcf : ColumnFormat)
    (hrep : ff.options.repeat_last_column = true)
    (hlast : ff.columns.getLast? = some rcf)
    (hs : structuralErrors ff df = [])
    (hoe : ff.options.on_error ≠ some "reject-file")
    (hrun : ff.processE m df { total_rows := df.nrows } = .inr r)
    (hnorow : ∀ e ∈ r.errors, e.error_level ≠ .ROW)
    (hnd : df.labels.Nodup)
    (hidx : df.index = List.range df.nrows)
    (hwf : ∀ c ∈ df.cols, c.2.length = df.nrows)
    (hne : df.cols.drop (ff.columns.length - 1) ≠ []) :
    ∃ dfc cs errsIn errsOut vals,
      r.df = some dfc
      ∧ processRepeatList m rcf
          ((df.cols.drop (ff.columns.length - 1)).map (fun c =>
            { name := c.1, items := df.index.zip c.2 })) errsIn = .inr (cs, errsOut)
      ∧ dfc.getCol? rcf.name = some vals
      ∧ vals.length = df.nrows
      ∧ ∀ j, j < df.nrows →
          vals.getD j .nan =
            toAtomCell ((cs.map (fun c => c.values.getD j .nan)).filter
              (fun v => pyTruthy v)) := by
  -- unpack the run
  rcases processE_inr_cases m ff df _ r hrun with ⟨hneq, _⟩ | ⟨df2b, errs3, _, hcp, hfin⟩
  · exact absurd (by simp [hs]) hneq
  obtain ⟨df2a, errs2, rcf', vals0, hg, hpc, hrc, hdf2b⟩ :=
    columnPhase_repeat_inr m ff df _ df2b errs3 hrep hcp
  rw [hlast] at hg
  cases hg
  -- the final report carries the filtered frame
  rcases hfin with ⟨_, hreject, _⟩ | ⟨_, hr⟩
  · exact absurd hreject hoe
  subst hr
  -- the slice is positional
  have hmlen : ff.mainColumnFormats.length = ff.columns.length - 1 := by
    simp [FileFormat.mainColumnFormats, hrep]
  rw [hmlen, repeat_slice_positional df hnd (ff.columns.length - 1)] at hrc
  -- unpack process_repeat_columns
  simp only [process_repeat_columns] at hrc
  cases hpl : processRepeatList m rcf
      ((df.cols.drop (ff.columns.length - 1)).map (fun c =>
        { name := c.1, items := df.index.zip c.2 })) errs2 with
  | inl q => obtain ⟨m2, es2⟩ := q; simp only [hpl] at hrc; cases hrc
  | inr q =>
      obtain ⟨cs, errsOut⟩ := q
      simp only [hpl] at hrc
      cases hrows : notnullRows (zipStar (cs.map Series.values)) with
      | inl e2 => simp only [hrows] at hrc; cases hrc
      | inr rows =>
          simp only [hrows] at hrc
          cases hrc
          -- column lengths across the slice
          have hf2 := processRepeatList_forall₂ m rcf _ cs errs2 errs3 hpl
          have hlens : ∀ c ∈ cs.map Series.values, c.length = df.nrows := by
            intro cvs hcvs
            obtain ⟨c, hcmem, rfl⟩ := List.mem_map.mp hcvs
            obtain ⟨i, hget⟩ := List.mem_iff_get.mp hcmem
            have hi2 : (i : Nat) < ((df.cols.drop (ff.columns.length - 1)).map (fun c =>
                ({ name := c.1, items := df.index.zip c.2 } : Series))).length := by
              have := hf2.length_eq
              omega
            have hrel := hf2.get i.isLt hi2
            rw [hget] at hrel
            obtain ⟨_, hfst⟩ := hrel
            have hlc := congrArg List.length hfst
            simp only [List.length_map] at hlc
            have hin : ((df.cols.drop (ff.columns.length - 1)).map (fun c =>
                ({ name := c.1, items := df.index.zip c.2 } : Series))).get ⟨i, hi2⟩ ∈
                ((df.cols.drop (ff.columns.length - 1)).map (fun c =>
                ({ name := c.1, items := df.index.zip c.2 } : Series))) :=
              List.get_mem _ _ hi2
            obtain ⟨c0, hc0, hc0eq⟩ := List.mem_map.mp hin
            rw [← hc0eq] at hlc
            simp only [Series.values, List.length_map]
            rw [hlc]
            have hc02 : c0.2.length = df.nrows := hwf c0 (List.mem_of_mem_drop hc0)
            simp [List.length_zip, hc02, Df.nrows]
          have hcsne : cs.map Series.values ≠ [] := by
            intro hq
            rw [List.map_eq_nil_iff] at hq
            subst hq
            have hl0 := hf2.length_eq
            simp only [List.length_nil, List.length_map] at hl0
            exact hne (List.eq_nil_of_length_eq_zero hl0.symm)
          obtain ⟨hzlen, hzget⟩ := zipStar_spec (cs.map Series.values) df.nrows hlens hcsne
          have hrowseq := notnullRows_ok _ _ hrows
          -- the stored column, before and after filtering
          have hkeep : ∀ L, (fun L => !(hasRowError
              (errs3 ++ runValidators ff.options.validators df2b) L)) L = true := by
            intro L
            simp only [Bool.not_eq_true']
            exact hasRowError_false _ (by
              intro e he
              exact hnorow e (by simpa using he)) L
          have hcol0 : df2b.getCol? rcf.name =
              some (df2a.index.map (fun L => (rows.map toAtomCell).getD L .nan)) := by
            rw [hdf2b]
            simp only [Df.setColAligned]
            exact getCol?_setCol _ _ _
          have hidx2a : df2a.index = df.index :=
            ((processCols_shape m _ df _ _).2 _ _ hpc).2
          have hlen0 : (df2a.index.map
              (fun L => (rows.map toAtomCell).getD L .nan)).length ≤ df2b.index.length := by
            rw [hdf2b]
            simp [Df.setColAligned, setCol_index]
          have hgetcol : (df2b.filterRows (fun L => !(hasRowError
                (errs3 ++ runValidators ff.options.validators df2b) L))).getCol? rcf.name
              = some (df.index.map (fun L => (rows.map toAtomCell).getD L .nan)) := by
            rw [getCol?_filterRows, hcol0]
            rw [hidx2a]
            simp only [Option.map_some']
            congr 1
            apply zip_filter_true_snd df2b.index _ _ hkeep
            rw [hdf2b, setColAligned_index, hidx2a]
            simp
          refine ⟨_, cs, errs2, errs3,
            df.index.map (fun L => (rows.map toAtomCell).getD L .nan),
            rfl, hpl, hgetcol, ?_, ?_⟩
          · simp [Df.nrows]
          · intro j hj
            have hjlt : j < df.index.length := by simpa [Df.nrows] using hj
            rw [List.getD_eq_getElem?_getD, List.getElem?_map]
            have hidxj : df.index[j]? = some j := by
              rw [hidx]
              simp [List.getElem?_range, hj]
            rw [hidxj]
            simp only [Option.map_some', Option.getD_some]
            have hrlen : rows.length = df.nrows := by
              rw [hrowseq]
              simp [hzlen]
            have hmapA : (rows.map toAtomCell).getD j .nan = toAtomCell (rows.getD j []) := by
              rw [List.getD_eq_getElem?_getD, List.getElem?_map,
                List.getD_eq_getElem?_getD]
              have : j < rows.length := by rw [hrlen]; exact hj
              rw [List.getElem?_eq_getElem this]
              simp
            rw [hmapA, hrowseq]
            rw [List.getD_eq_getElem?_getD, List.getElem?_map]
            have hjz : j < (zipStar (cs.map Series.values)).length := by
              rw [hzlen]; exact hj
            rw [List.getElem?_eq_getElem hjz]
            simp only [Option.map_some', Option.getD_some]
            have hzj := hzget j hj
            rw [List.getD_eq_getElem?_getD, List.getElem?_eq_getElem hjz,
              Option.getD_some] at hzj
            rw [hzj, List.map_map]
            congr 1


/-- Witness for the amended C4 at the concrete repeat scenario. -/
theorem C4_repeat_positional_truthy_witness :
    ffRep.options.repeat_last_column = true
    ∧ ffRep.columns.getLast? = some colB
    ∧ structuralErrors ffRep dfRep = []
    ∧ FileFormat.processE matchAll ffRep dfRep { total_rows := 1 } = .inr rRep
    ∧ ∃ dfc cs errsIn errsOut vals,
        rRep.df = some dfc
        ∧ processRepeatList matchAll colB
            ((dfRep.cols.drop (ffRep.columns.length - 1)).map (fun c =>
              { name := c.1, items := dfRep.index.zip c.2 })) errsIn = .inr (cs, errsOut)
        ∧ dfc.getCol? colB.name = some vals
        ∧ vals.length = dfRep.nrows
        ∧ ∀ j, j < dfRep.nrows →
            vals.getD j .nan =
              toAtomCell ((cs.map (fun c => c.values.getD j .nan)).filter
                (fun v => pyTruthy v)) := by
  refine ⟨rfl, by decide, by decide, by decide, ?_⟩
  exact C4_repeat_positional_truthy matchAll ffRep dfRep rRep colB rfl (by decide)
    (by decide) (by decide) (by decide) (by decide) (by decide) (by decide)
    (by decide) (by decide)

/-! ### Claim C5: idempotence

The spec claims re-running `process` on a cleaned, schema-conformant
table yields zero errors and the same values.  The DATE conversion
refutes this: it rewrites cells into ISO form, which the declared
dateformat no longer parses.  The property does hold for the
self-stabilising datatypes INTEGER and STRING (FLOAT is not: a
`"nan"` cell converts cleanly to a NaN that the second run's required
check flags as missing); the development below
builds per-cell, per-chain and per-frame fixpoint lemmas for that
amended statement. -/

/-- A `String.mk` of a nonempty character list is not the empty
string. -/
theorem string_mk_ne_empty (l : List Char) (h : l ≠ []) : String.mk l ≠ "" :=
  fun hq => h (congrArg String.data hq)

theorem natChars_ne_nil (n : Nat) : natChars n ≠ [] := by
  rw [natChars, natCharsAux]
  split <;> simp

theorem natStr_ne_empty (n : Nat) : natStr n ≠ "" :=
  string_mk_ne_empty _ (natChars_ne_nil n)

/-- Appending to a nonempty string keeps it nonempty. -/
theorem append_ne_empty_left (a b : String) (h : a ≠ "") : a ++ b ≠ "" := by
  intro hq
  apply h
  have hd : a.data ++ b.data = ([] : List Char) := congrArg String.data hq
  have : a.data = [] := (List.append_eq_nil.mp hd).1
  cases a
  simp_all

theorem intStr_ne_empty (n : Int) : intStr n ≠ "" := by
  rw [intStr]
  split
  · exact append_ne_empty_left _ _ (by decide)
  · exact natStr_ne_empty _

/-- Appending a nonempty string keeps the result nonempty. -/
theorem append_ne_empty_right (a b : String) (h : b ≠ "") : a ++ b ≠ "" := by
  intro hq
  apply h
  have hd : a.data ++ b.data = ([] : List Char) := congrArg String.data hq
  have : b.data = [] := (List.append_eq_nil.mp hd).2
  cases b
  simp_all

theorem ratStr_ne_empty (q : Rat) : ratStr q ≠ "" := by
  rw [ratStr]
  split
  · exact append_ne_empty_left _ _ (intStr_ne_empty _)
  · exact append_ne_empty_right _ _ (natStr_ne_empty _)

theorem padNum_ne_empty (w n : Nat) : padNum w n ≠ "" := by
  rw [padNum]
  split
  · exact append_ne_empty_right _ _ (natStr_ne_empty n)
  · exact natStr_ne_empty n

/-- `str(...)` of a non-missing cell value is never the empty string
(needed so a converted STRING cell re-passes the required check). -/
theorem pyStr_ne_empty (v : Value) (h : isMissingCell v = false) : pyStr v ≠ "" := by
  cases v with
  | listv vs =>
      intro hq
      have hd : (("[" ++ String.intercalate ", " (List.map atomRepr vs) ++ "]" : String)).data
          = ([] : List Char) := congrArg String.data hq
      simp only [String.data_append] at hd
      exact absurd (List.append_eq_nil.mp hd).2 (by decide)
  | atom a =>
      cases a with
      | pynone => cases h
      | nan => cases h
      | na => cases h
      | str s => simpa [isMissingCell] using h
      | intv n => exact intStr_ne_empty n
      | floatv q => exact ratStr_ne_empty q
      | inf b => cases b <;> decide
      | dtv y mo d hh mi ss =>
          simp only [pyStr]
          exact append_ne_empty_right _ _ (padNum_ne_empty 2 ss)

/-- The INTEGER and STRING conversions are projections: converting
once lands in their fixed points.  (FLOAT is *not* such a projection:
`float("nan")` succeeds and yields a NaN, which the required check of
a second run flags as missing.) -/
theorem convertAtom_fix (dt : Datatype) (fmtc : Option String) (v v2 : Value)
    (hdt : dt = .INTEGER ∨ dt = .STRING)
    (hm : isMissingCell v = false)
    (h : convertAtom dt fmtc v = .ok v2) :
    isMissingCell v2 = false ∧ convertAtom dt fmtc v2 = .ok v2 := by
  rcases hdt with rfl | rfl
  · cases v with
    | listv vs =>
        simp only [convertAtom, hm, Bool.false_eq_true, if_false] at h
        cases h
    | atom a =>
        cases a with
        | pynone => cases hm
        | nan => cases hm
        | na => cases hm
        | str s =>
            simp only [convertAtom, hm, Bool.false_eq_true, if_false] at h
            cases hp : parseInt s with
            | some n =>
                simp only [hp] at h
                cases h
                exact ⟨rfl, rfl⟩
            | none => simp only [hp] at h; cases h
        | intv n =>
            simp only [convertAtom, hm, Bool.false_eq_true, if_false] at h
            cases h
            exact ⟨rfl, rfl⟩
        | floatv q =>
            simp only [convertAtom, hm, Bool.false_eq_true, if_false] at h
            cases h
            exact ⟨rfl, rfl⟩
        | inf b =>
            simp only [convertAtom, hm, Bool.false_eq_true, if_false] at h
            cases h
        | dtv y mo d hh mi ss =>
            simp only [convertAtom, hm, Bool.false_eq_true, if_false] at h
            cases h
  · simp only [convertAtom, hm, Bool.false_eq_true, if_false] at h
    cases h
    have hne : pyStr v ≠ "" := pyStr_ne_empty v hm
    have hm2 : isMissingCell (Value.str (pyStr v)) = false := by
      simp [isMissingCell, hne]
    refine ⟨hm2, ?_⟩
    have hstep : convertAtom Datatype.STRING fmtc (Value.str (pyStr v)) =
        if isMissingCell (Value.str (pyStr v)) then ConvResult.ok (missingMarker .STRING)
        else .ok (.str (pyStr (Value.str (pyStr v)))) := rfl
    rw [hstep, hm2]
    rfl

/-- Inversion of a clean `cellScan`: every cell returned no errors. -/
theorem cellScan_clean (f : Nat × Value → Sum String (List FileFormatError))
    (items : List (Nat × Value)) (h : cellScan f items = .inr []) :
    ∀ iv ∈ items, f iv = .inr [] := by
  induction items with
  | nil => intro iv hiv; cases hiv
  | cons iv0 rest ih =>
      intro iv hiv
      simp only [cellScan] at h
      cases hcell : f iv0 with
      | inl msg => rw [hcell] at h; cases h
      | inr here =>
          rw [hcell] at h
          cases hrest : cellScan f rest with
          | inl q => obtain ⟨m2, es2⟩ := q; rw [hrest] at h; cases h
          | inr es2 =>
              rw [hrest] at h
              have happ : here ++ es2 = [] := by injection h
              have h0 := List.append_eq_nil.mp happ
              rcases List.mem_cons.mp hiv with rfl | hiv2
              · rw [hcell, h0.1]
              · exact ih (h0.2 ▸ hrest) iv hiv2

/-- Inversion of a clean `cellMapScan`: every cell converted without
errors and the output is the per-cell rewrite of the input. -/
theorem cellMapScan_clean (f : Nat × Value → Sum String (Value × List FileFormatError))
    (items its : List (Nat × Value)) (h : cellMapScan f items = .inr (its, [])) :
    its = items.map (fun iv => (iv.1, cellVal (f iv)))
    ∧ ∀ iv ∈ items, ∃ v, f iv = .inr (v, []) := by
  induction items generalizing its with
  | nil => cases h; exact ⟨rfl, fun iv hiv => absurd hiv (List.not_mem_nil iv)⟩
  | cons iv0 rest ih =>
      simp only [cellMapScan] at h
      cases hcell : f iv0 with
      | inl msg => rw [hcell] at h; cases h
      | inr q =>
          obtain ⟨v2, here⟩ := q
          rw [hcell] at h
          cases hrest : cellMapScan f rest with
          | inl q2 => obtain ⟨m2, es2⟩ := q2; rw [hrest] at h; cases h
          | inr q2 =>
              obtain ⟨its2, es2⟩ := q2
              rw [hrest] at h
              have hpair : ((iv0.1, v2) :: its2, here ++ es2) = (its, ([] : List FileFormatError)) := by
                injection h
              have h1 : (iv0.1, v2) :: its2 = its := congrArg Prod.fst hpair
              have h2 : here ++ es2 = [] := congrArg Prod.snd hpair
              have h0 := List.append_eq_nil.mp h2
              obtain ⟨hmap, hall⟩ := ih its2 (h0.2 ▸ hrest)
              constructor
              · rw [← h1, List.map_cons, hcell]
                simp only [cellVal, hmap]
              · intro iv hiv
                rcases List.mem_cons.mp hiv with rfl | hiv2
                · exact ⟨v2, h0.1 ▸ hcell⟩
                · exact hall iv hiv2

/-- The required check passes exactly on columns with no missing
cell. -/
theorem required_nil_iff (s : Series) :
    RequiredProcessor.process s = [] ↔ ∀ iv ∈ s.items, isMissingCell iv.2 = false := by
  rw [RequiredProcessor.process, List.filterMap_eq_nil_iff]
  constructor
  · intro h iv hiv
    have := h iv hiv
    by_contra hb
    rw [Bool.not_eq_false] at hb
    rw [if_pos hb] at this
    cases this
  · intro h iv hiv
    rw [if_neg (by simp [h iv hiv])]

/-- Mapping a function that fixes every member is the identity. -/
theorem map_id_of_mem {α : Type} (l : List α) (f : α → α) (h : ∀ a ∈ l, f a = a) :
    l.map f = l := by
  induction l with
  | nil => rfl
  | cons a rest ih =>
      simp only [List.map_cons]
      rw [h a (by simp), ih (fun b hb => h b (by simp [hb]))]

/-- Flat-mapping a function that is empty on every member gives the
empty list. -/
theorem flatMap_nil_of_mem {α β : Type} (l : List α) (f : α → List β)
    (h : ∀ a ∈ l, f a = []) : l.flatMap f = [] := by
  induction l with
  | nil => rfl
  | cons a rest ih =>
      simp only [List.flatMap_cons]
      rw [h a (by simp), ih (fun b hb => h b (by simp [hb]))]
      rfl

/-- A processor only appends to the incoming error list: its run at any
error frame is its run at the empty frame with the frame prepended. -/
theorem runProcessor_frame (m : String → String → Bool) (p : Processor) (s : Series)
    (errs : List FileFormatError) :
    runProcessor m p s errs =
      match runProcessor m p s [] with
      | .inl (msg, es) => .inl (msg, errs ++ es)
      | .inr (s2, es) => .inr (s2, errs ++ es) := by
  cases p with
  | uniqueness => simp [runProcessor]
  | requiredP => simp [runProcessor]
  | defaultsP dv mvs => simp [runProcessor]
  | regexP r =>
      cases hp : RegexProcessor.process m r s with
      | inl q => obtain ⟨msg, es⟩ := q; simp [runProcessor, hp]
      | inr es => simp [runProcessor, hp]
  | optionsP o =>
      cases hp : OptionsProcessor.process o s with
      | inl q => obtain ⟨msg, es⟩ := q; simp [runProcessor, hp]
      | inr es => simp [runProcessor, hp]
  | datatypeP dt dfmt =>
      cases hp : DatatypeProcessor.process dt (dfmt.map convert_dateformat) s with
      | inl q => obtain ⟨msg, es⟩ := q; simp [runProcessor, hp]
      | inr q => obtain ⟨s2, es⟩ := q; simp [runProcessor, hp]

/-- Error-frame invariance of a whole chain run. -/
theorem runProcessors_frame (m : String → String → Bool) (ps : List Processor) (s : Series)
    (errs : List FileFormatError) :
    runProcessors m ps s errs =
      match runProcessors m ps s [] with
      | .inl (msg, es) => .inl (msg, errs ++ es)
      | .inr (s2, es) => .inr (s2, errs ++ es) := by
  induction ps generalizing s errs with
  | nil => simp [runProcessors]
  | cons p rest ih =>
      simp only [runProcessors]
      rw [runProcessor_frame m p s errs]
      cases hp : runProcessor m p s [] with
      | inl q => obtain ⟨msg, es⟩ := q; simp
      | inr q =>
          obtain ⟨s2, es⟩ := q
          simp only []
          rw [ih s2 (errs ++ es), ih s2 es]
          cases hq : runProcessors m rest s2 [] with
          | inl q2 => obtain ⟨m3, es3⟩ := q2; simp [List.append_assoc]
          | inr q2 => obtain ⟨s3, es3⟩ := q2; simp [List.append_assoc]

/-- Running a concatenated chain is running the two parts in
sequence. -/
theorem runProcessors_append (m : String → String → Bool) (ps qs : List Processor)
    (s : Series) (errs : List FileFormatError) :
    runProcessors m (ps ++ qs) s errs =
      match runProcessors m ps s errs with
      | .inl e => .inl e
      | .inr (s2, errs2) => runProcessors m qs s2 errs2 := by
  induction ps generalizing s errs with
  | nil => simp [runProcessors]
  | cons p rest ih =>
      simp only [List.cons_append, runProcessors]
      cases hp : runProcessor m p s errs with
      | inl q => obtain ⟨msg, es⟩ := q; simp
      | inr q => obtain ⟨s2, errs2⟩ := q; simp [ih]

/-- A clean datatype cell conversion succeeded without a caught
`ValueError`. -/
theorem datatypeCell_clean_inv (dt : Datatype) (c : Option String) (nm : String)
    (iv : Nat × Value) (v : Value)
    (h : datatypeCell dt c nm iv = .inr (v, [])) :
    convertAtom dt c iv.2 = .ok v := by
  simp only [datatypeCell] at h
  cases hc : convertAtom dt c iv.2 with
  | ok v2 =>
      rw [hc] at h
      have hp : (v2, ([] : List FileFormatError)) = (v, []) := by injection h
      have hv2 : v2 = v := congrArg Prod.fst hp
      rw [hv2]
  | valueErr msg =>
      rw [hc] at h
      have hp : (missingMarker dt, [mkRowError "invalid-value" msg iv.1 nm iv.2])
          = (v, ([] : List FileFormatError)) := by injection h
      have := congrArg Prod.snd hp
      simp at this
  | typeErr msg => rw [hc] at h; cases h

/-- Inversion of a clean `[required, datatype]` tail run at the empty
error frame. -/
theorem reqdt_clean_inv (m : String → String → Bool) (dt : Datatype) (dfmt : Option String)
    (s out : Series)
    (h : runProcessors m [Processor.requiredP, Processor.datatypeP dt dfmt] s []
      = .inr (out, [])) :
    RequiredProcessor.process s = []
    ∧ out = { s with items := s.items.map (fun iv =>
        (iv.1, cellVal (datatypeCell dt (dfmt.map convert_dateformat) s.name iv))) }
    ∧ ∀ iv ∈ s.items, ∃ v,
        datatypeCell dt (dfmt.map convert_dateformat) s.name iv = .inr (v, []) := by
  cases hcm : cellMapScan (datatypeCell dt (dfmt.map convert_dateformat) s.name) s.items with
  | inl q =>
      obtain ⟨msg, es⟩ := q
      simp only [runProcessors, runProcessor, DatatypeProcessor.process, hcm,
        List.nil_append] at h
      cases h
  | inr q =>
      obtain ⟨its, es2⟩ := q
      simp only [runProcessors, runProcessor, DatatypeProcessor.process, hcm,
        List.nil_append] at h
      have hp : (({ s with items := its } : Series), RequiredProcessor.process s ++ es2)
          = (out, ([] : List FileFormatError)) := by injection h
      have hso : ({ s with items := its } : Series) = out := congrArg Prod.fst hp
      have h0 := List.append_eq_nil.mp (congrArg Prod.snd hp)
      obtain ⟨hmap, hall⟩ := cellMapScan_clean _ _ _ (h0.2 ▸ hcm)
      refine ⟨h0.1, ?_, hall⟩
      rw [← hso, hmap]

/-- Forward run of a `[required, datatype]` tail on a column it
fixes. -/
theorem reqdt_run_clean (m : String → String → Bool) (dt : Datatype) (dfmt : Option String)
    (s : Series)
    (hreqnil : RequiredProcessor.process s = [])
    (hcm : cellMapScan (datatypeCell dt (dfmt.map convert_dateformat) s.name) s.items
      = .inr (s.items, [])) :
    runProcessors m [Processor.requiredP, Processor.datatypeP dt dfmt] s []
      = .inr (s, []) := by
  simp only [runProcessors, runProcessor, DatatypeProcessor.process, hreqnil,
    List.nil_append, hcm]

/-- The error frame entering a clean `[required, datatype]` tail must
itself have been empty. -/
theorem reqdt_tail_inv (m : String → String → Bool) (dt : Datatype) (dfmt : Option String)
    (s out : Series) (es1 : List FileFormatError)
    (h : runProcessors m [Processor.requiredP, Processor.datatypeP dt dfmt] s es1
      = .inr (out, [])) :
    es1 = []
    ∧ runProcessors m [Processor.requiredP, Processor.datatypeP dt dfmt] s []
        = .inr (out, []) := by
  rw [runProcessors_frame] at h
  cases hrest : runProcessors m [Processor.requiredP, Processor.datatypeP dt dfmt] s [] with
  | inl q => obtain ⟨m2, es2⟩ := q; rw [hrest] at h; cases h
  | inr q =>
      obtain ⟨s3, es3⟩ := q
      rw [hrest] at h
      have hp : (s3, es1 ++ es3) = (out, ([] : List FileFormatError)) := by injection h
      have h0 := List.append_eq_nil.mp (congrArg Prod.snd hp)
      have hs3 : s3 = out := congrArg Prod.fst hp
      refine ⟨h0.1, ?_⟩
      rw [hs3, h0.2]

/-- The INTEGER and STRING conversions are projections: re-running
the `[required, datatype]` tail on its own clean output changes
nothing. -/
theorem reqdt_fixpoint (m : String → String → Bool) (dt : Datatype) (dfmt : Option String)
    (s out : Series)
    (hdt : dt = .INTEGER ∨ dt = .STRING)
    (h : runProcessors m [Processor.requiredP, Processor.datatypeP dt dfmt] s []
      = .inr (out, [])) :
    runProcessors m [Processor.requiredP, Processor.datatypeP dt dfmt] out []
      = .inr (out, []) := by
  obtain ⟨hreqnil, hout, hall⟩ := reqdt_clean_inv m dt dfmt s out h
  have hmiss := (required_nil_iff s).mp hreqnil
  have hcells : ∀ iv ∈ out.items, isMissingCell iv.2 = false ∧
      convertAtom dt (dfmt.map convert_dateformat) iv.2 = .ok iv.2 := by
    intro iv hiv
    rw [hout] at hiv
    obtain ⟨jv, hjv, rfl⟩ := List.mem_map.mp hiv
    obtain ⟨v, hv⟩ := hall jv hjv
    have hconv := datatypeCell_clean_inv dt _ s.name jv v hv
    have hfix := convertAtom_fix dt (dfmt.map convert_dateformat) jv.2 v hdt
      (hmiss jv hjv) hconv
    have hcv : cellVal (datatypeCell dt (dfmt.map convert_dateformat) s.name jv) = v := by
      rw [hv]
      rfl
    rw [hcv]
    exact hfix
  have hreq2 : RequiredProcessor.process out = [] :=
    (required_nil_iff out).mpr (fun iv hiv => (hcells iv hiv).1)
  have hdc : ∀ iv ∈ out.items,
      datatypeCell dt (dfmt.map convert_dateformat) out.name iv = .inr (iv.2, []) := by
    intro iv hiv
    simp [datatypeCell, (hcells iv hiv).2]
  have hmapid : out.items.map (fun iv =>
      (iv.1, cellVal (datatypeCell dt (dfmt.map convert_dateformat) out.name iv)))
      = out.items := by
    apply map_id_of_mem
    intro iv hiv
    rw [hdc iv hiv]
    rfl
  have hflat : out.items.flatMap (fun iv =>
      cellErrs (datatypeCell dt (dfmt.map convert_dateformat) out.name iv)) = [] := by
    apply flatMap_nil_of_mem
    intro iv hiv
    rw [hdc iv hiv]
    rfl
  have hcm2 : cellMapScan (datatypeCell dt (dfmt.map convert_dateformat) out.name) out.items
      = .inr (out.items, []) := by
    rw [cellMapScan_ok _ _ (fun iv hiv => ⟨iv.2, [], hdc iv hiv⟩), hmapid, hflat]
  exact reqdt_run_clean m dt dfmt out hreq2 hcm2

/-- A clean regex pass over a column with no missing cell forces every
cell to be a nonempty string. -/
theorem regex_cells_clean_str (m : String → String → Bool) (r nm : String)
    (items : List (Nat × Value))
    (hscan : cellScan (regexCell m r nm) items = .inr [])
    (hmiss : ∀ iv ∈ items, isMissingCell iv.2 = false) :
    ∀ iv ∈ items, ∃ sv, iv.2 = Value.str sv ∧ sv ≠ "" := by
  intro iv hiv
  have hc := cellScan_clean _ _ hscan iv hiv
  have hm := hmiss iv hiv
  obtain ⟨i, v⟩ := iv
  cases v with
  | listv vs => simp only [regexCell] at hc; cases hc
  | atom a =>
      cases a with
      | pynone => cases hm
      | nan => cases hm
      | na => cases hm
      | str sv =>
          refine ⟨sv, rfl, ?_⟩
          simpa [isMissingCell] using hm
      | intv n => simp only [regexCell] at hc; cases hc
      | floatv q => simp only [regexCell] at hc; cases hc
      | inf b => simp only [regexCell] at hc; cases hc
      | dtv y mo d hh mi ss => simp only [regexCell] at hc; cases hc

/-- A clean options pass over a column with no missing cell forces
every cell to be a nonempty string. -/
theorem options_cells_clean_str (opts : List String) (nm : String)
    (items : List (Nat × Value))
    (hscan : cellScan (optionsCell opts nm) items = .inr [])
    (hmiss : ∀ iv ∈ items, isMissingCell iv.2 = false) :
    ∀ iv ∈ items, ∃ sv, iv.2 = Value.str sv ∧ sv ≠ "" := by
  intro iv hiv
  have hc := cellScan_clean _ _ hscan iv hiv
  have hm := hmiss iv hiv
  obtain ⟨i, v⟩ := iv
  cases v with
  | listv vs => simp [optionsCell, optionsMember, mkRowError] at hc
  | atom a =>
      cases a with
      | pynone => cases hm
      | nan => cases hm
      | na => cases hm
      | str sv => exact ⟨sv, rfl, by simpa [isMissingCell] using hm⟩
      | intv n => simp [optionsCell, optionsMember, mkRowError] at hc
      | floatv q => simp [optionsCell, optionsMember, mkRowError] at hc
      | inf b => simp [optionsCell, optionsMember, mkRowError] at hc
      | dtv y mo d hh mi ss => simp [optionsCell, optionsMember, mkRowError] at hc

/-- The STRING conversion is the identity on columns of nonempty
strings. -/
theorem str_map_id (c : Option String) (nm : String) (items : List (Nat × Value))
    (hstr : ∀ iv ∈ items, ∃ sv, iv.2 = Value.str sv ∧ sv ≠ "") :
    items.map (fun iv =>
      (iv.1, cellVal (datatypeCell Datatype.STRING c nm iv))) = items := by
  apply map_id_of_mem
  intro iv hiv
  obtain ⟨sv, hv, hne⟩ := hstr iv hiv
  have hm2 : isMissingCell iv.2 = false := by simp [hv, isMissingCell, hne]
  have hconv : convertAtom Datatype.STRING c iv.2 = .ok iv.2 := by
    have hstep : convertAtom Datatype.STRING c iv.2 =
        if isMissingCell iv.2 then ConvResult.ok (missingMarker .STRING)
        else .ok (.str (pyStr iv.2)) := rfl
    rw [hstep, hm2, hv]
    rfl
  have hdc : datatypeCell Datatype.STRING c nm iv = .inr (iv.2, []) := by
    simp [datatypeCell, hconv]
  rw [hdc]
  rfl

/-- A clean `[regex, required, datatype STRING]` run leaves the column
unchanged: regex plus required force nonempty string cells, on which
`str` is the identity. -/
theorem chain_regex_id (m : String → String → Bool) (r : String) (dfmt : Option String)
    (s out : Series)
    (h : runProcessors m [Processor.regexP r, Processor.requiredP,
        Processor.datatypeP Datatype.STRING dfmt] s [] = .inr (out, [])) :
    out = s := by
  rw [show [Processor.regexP r, Processor.requiredP, Processor.datatypeP Datatype.STRING dfmt]
      = [Processor.regexP r]
        ++ [Processor.requiredP, Processor.datatypeP Datatype.STRING dfmt] from rfl,
    runProcessors_append] at h
  cases hpre : runProcessors m [Processor.regexP r] s [] with
  | inl e => rw [hpre] at h; cases h
  | inr q =>
      obtain ⟨s1, es1⟩ := q
      rw [hpre] at h
      simp only [runProcessors, runProcessor] at hpre
      cases hR : RegexProcessor.process m r s with
      | inl q2 => obtain ⟨m2, e2⟩ := q2; rw [hR] at hpre; cases hpre
      | inr es2 =>
          rw [hR] at hpre
          have hp : (s, ([] : List FileFormatError) ++ es2) = (s1, es1) := by injection hpre
          have hs1 : s = s1 := congrArg Prod.fst hp
          have hes : ([] : List FileFormatError) ++ es2 = es1 := congrArg Prod.snd hp
          subst hs1
          obtain ⟨hes1, htail⟩ := reqdt_tail_inv m Datatype.STRING dfmt s out es1 h
          obtain ⟨hreqnil, hout, _⟩ := reqdt_clean_inv m Datatype.STRING dfmt s out htail
          have hmiss := (required_nil_iff s).mp hreqnil
          have he2 : es2 = [] := by
            have := hes.trans hes1
            simpa using this
          have hscan : cellScan (regexCell m r s.name) s.items = .inr [] := he2 ▸ hR
          have hstr := regex_cells_clean_str m r s.name s.items hscan hmiss
          rw [hout, str_map_id _ _ _ hstr]

/-- A clean `[options, required, datatype STRING]` run leaves the
column unchanged. -/
theorem chain_options_id (m : String → String → Bool) (o : List String)
    (dfmt : Option String) (s out : Series)
    (h : runProcessors m [Processor.optionsP o, Processor.requiredP,
        Processor.datatypeP Datatype.STRING dfmt] s [] = .inr (out, [])) :
    out = s := by
  rw [show [Processor.optionsP o, Processor.requiredP, Processor.datatypeP Datatype.STRING dfmt]
      = [Processor.optionsP o]
        ++ [Processor.requiredP, Processor.datatypeP Datatype.STRING dfmt] from rfl,
    runProcessors_append] at h
  cases hpre : runProcessors m [Processor.optionsP o] s [] with
  | inl e => rw [hpre] at h; cases h
  | inr q =>
      obtain ⟨s1, es1⟩ := q
      rw [hpre] at h
      simp only [runProcessors, runProcessor] at hpre
      cases hO : OptionsProcessor.process o s with
      | inl q2 => obtain ⟨m2, e2⟩ := q2; rw [hO] at hpre; cases hpre
      | inr es2 =>
          rw [hO] at hpre
          have hp : (s, ([] : List FileFormatError) ++ es2) = (s1, es1) := by injection hpre
          have hs1 : s = s1 := congrArg Prod.fst hp
          have hes : ([] : List FileFormatError) ++ es2 = es1 := congrArg Prod.snd hp
          subst hs1
          obtain ⟨hes1, htail⟩ := reqdt_tail_inv m Datatype.STRING dfmt s out es1 h
          obtain ⟨hreqnil, hout, _⟩ := reqdt_clean_inv m Datatype.STRING dfmt s out htail
          have hmiss := (required_nil_iff s).mp hreqnil
          have he2 : es2 = [] := by
            have := hes.trans hes1
            simpa using this
          have hscan : cellScan (optionsCell o s.name) s.items = .inr [] := he2 ▸ hO
          have hstr := options_cells_clean_str o s.name s.items hscan hmiss
          rw [hout, str_map_id _ _ _ hstr]

/-- A clean `[regex, options, required, datatype STRING]` run leaves
the column unchanged. -/
theorem chain_regex_options_id (m : String → String → Bool) (r : String)
    (o : List String) (dfmt : Option String) (s out : Series)
    (h : runProcessors m [Processor.regexP r, Processor.optionsP o, Processor.requiredP,
        Processor.datatypeP Datatype.STRING dfmt] s [] = .inr (out, [])) :
    out = s := by
  rw [show [Processor.regexP r, Processor.optionsP o, Processor.requiredP,
        Processor.datatypeP Datatype.STRING dfmt]
      = [Processor.regexP r] ++ ([Processor.optionsP o]
        ++ [Processor.requiredP, Processor.datatypeP Datatype.STRING dfmt]) from rfl,
    runProcessors_append] at h
  cases hpre : runProcessors m [Processor.regexP r] s [] with
  | inl e => rw [hpre] at h; cases h
  | inr q =>
      obtain ⟨s1, es1⟩ := q
      rw [hpre] at h
      simp only [runProcessors, runProcessor] at hpre
      cases hR : RegexProcessor.process m r s with
      | inl q2 => obtain ⟨m2, e2⟩ := q2; rw [hR] at hpre; cases hpre
      | inr es2 =>
          rw [hR] at hpre
          have hp : (s, ([] : List FileFormatError) ++ es2) = (s1, es1) := by injection hpre
          have hs1 : s = s1 := congrArg Prod.fst hp
          have hes : ([] : List FileFormatError) ++ es2 = es1 := congrArg Prod.snd hp
          subst hs1
          simp only [] at h
          rw [runProcessors_append] at h
          cases hpre2 : runProcessors m [Processor.optionsP o] s es1 with
          | inl e => rw [hpre2] at h; cases h
          | inr q2 =>
              obtain ⟨s2, es2b⟩ := q2
              rw [hpre2] at h
              simp only [runProcessors, runProcessor] at hpre2
              cases hO : OptionsProcessor.process o s with
              | inl q3 => obtain ⟨m3, e3⟩ := q3; rw [hO] at hpre2; cases hpre2
              | inr esO =>
                  rw [hO] at hpre2
                  have hp2 : (s, es1 ++ esO) = (s2, es2b) := by injection hpre2
                  have hs2 : s = s2 := congrArg Prod.fst hp2
                  have hes2 : es1 ++ esO = es2b := congrArg Prod.snd hp2
                  subst hs2
                  obtain ⟨hes2b, htail⟩ := reqdt_tail_inv m Datatype.STRING dfmt s out es2b h
                  obtain ⟨hreqnil, hout, _⟩ := reqdt_clean_inv m Datatype.STRING dfmt s out htail
                  have hmiss := (required_nil_iff s).mp hreqnil
                  have hb := List.append_eq_nil.mp (hes2.trans hes2b)
                  have he2 : es2 = [] := by
                    have := hes.trans hb.1
                    simpa using this
                  have hscan : cellScan (regexCell m r s.name) s.items = .inr [] := he2 ▸ hR
                  have hstr := regex_cells_clean_str m r s.name s.items hscan hmiss
                  rw [hout, str_map_id _ _ _ hstr]

/-- Re-running the full processor chain of a self-stabilising column
format (required, not unique, datatype INTEGER or STRING, options
only on STRING columns) on its own clean output reproduces that output
with no errors. -/
theorem chain_fixpoint (m : String → String → Bool) (cf : ColumnFormat) (s out : Series)
    (hreq : cf.required = true) (huniq : cf.unique = false)
    (hdt : cf.datatype = .INTEGER ∨ cf.datatype = .STRING)
    (hopt : cf.options ≠ none → cf.datatype = .STRING)
    (h : runProcessors m cf.get_processors s [] = .inr (out, [])) :
    runProcessors m cf.get_processors out [] = .inr (out, []) := by
  by_cases hS : cf.datatype = Datatype.STRING
  · cases ho : cf.options with
    | none =>
        cases hr : cf.regex with
        | none =>
            have hchain : cf.get_processors
                = [Processor.requiredP, Processor.datatypeP cf.datatype cf.dateformat] := by
              simp [ColumnFormat.get_processors, huniq, hreq, ho, hr]
            rw [hchain] at h ⊢
            exact reqdt_fixpoint m cf.datatype cf.dateformat s out hdt h
        | some r =>
            by_cases hre : r = ""
            · have hchain : cf.get_processors
                  = [Processor.requiredP, Processor.datatypeP cf.datatype cf.dateformat] := by
                simp [ColumnFormat.get_processors, huniq, hreq, ho, hr, hre]
              rw [hchain] at h ⊢
              exact reqdt_fixpoint m cf.datatype cf.dateformat s out hdt h
            · have hchain : cf.get_processors
                  = [Processor.regexP r, Processor.requiredP,
                     Processor.datatypeP Datatype.STRING cf.dateformat] := by
                simp [ColumnFormat.get_processors, huniq, hreq, ho, hr, hre, hS]
              rw [hchain] at h ⊢
              have hid := chain_regex_id m r cf.dateformat s out h
              subst hid
              exact h
    | some o =>
        cases hr : cf.regex with
        | none =>
            have hchain : cf.get_processors
                = [Processor.optionsP o, Processor.requiredP,
                   Processor.datatypeP Datatype.STRING cf.dateformat] := by
              simp [ColumnFormat.get_processors, huniq, hreq, ho, hr, hS]
            rw [hchain] at h ⊢
            have hid := chain_options_id m o cf.dateformat s out h
            subst hid
            exact h
        | some r =>
            by_cases hre : r = ""
            · have hchain : cf.get_processors
                  = [Processor.optionsP o, Processor.requiredP,
                     Processor.datatypeP Datatype.STRING cf.dateformat] := by
                simp [ColumnFormat.get_processors, huniq, hreq, ho, hr, hre, hS]
              rw [hchain] at h ⊢
              have hid := chain_options_id m o cf.dateformat s out h
              subst hid
              exact h
            · have hchain : cf.get_processors
                  = [Processor.regexP r, Processor.optionsP o, Processor.requiredP,
                     Processor.datatypeP Datatype.STRING cf.dateformat] := by
                simp [ColumnFormat.get_processors, huniq, hreq, ho, hr, hre, hS]
              rw [hchain] at h ⊢
              have hid := chain_regex_options_id m r o cf.dateformat s out h
              subst hid
              exact h
  · have hO : cf.options = none := by
      cases ho : cf.options with
      | none => rfl
      | some o => exact absurd (hopt (by simp [ho])) hS
    have hchain : cf.get_processors
        = [Processor.requiredP, Processor.datatypeP cf.datatype cf.dateformat] := by
      simp only [ColumnFormat.get_processors, huniq, hreq, hO]
      cases hr : cf.regex with
      | none => simp
      | some r => simp [hS]
    rw [hchain] at h ⊢
    exact reqdt_fixpoint m cf.datatype cf.dateformat s out hdt h

/-- Zipping the two projections of a pair list rebuilds the list. -/
theorem zip_map_fst_snd {α β : Type} (l : List (α × β)) :
    (l.map Prod.fst).zip (l.map Prod.snd) = l := by
  induction l with
  | nil => rfl
  | cons a rest ih => simp [ih]

/-- Inversion of a clean column-processing loop: every declared column
was looked up, ran its chain cleanly (stated at the empty error frame),
and the output frame is the fold of the per-column assignments. -/
theorem processCols_clean_shape (m : String → String → Bool) (cfs : List ColumnFormat)
    (df : Df) :
    ∀ (acc : Df) (errs : List FileFormatError) (df2 : Df),
    processCols m cfs df acc errs = .inr (df2, errs) →
    ∃ outs : List Series,
      outs.length = cfs.length
      ∧ df2 = (cfs.zip outs).foldl (fun d p => d.setCol p.1.name p.2.values) acc
      ∧ ∀ p ∈ cfs.zip outs,
          ∃ s, df.getSeries? p.1.label = some s
            ∧ runProcessors m p.1.get_processors s [] = .inr (p.2, []) := by
  induction cfs with
  | nil =>
      intro acc errs df2 h
      cases h
      exact ⟨[], rfl, rfl, fun p hp => absurd hp (List.not_mem_nil p)⟩
  | cons cf rest ih =>
      intro acc errs df2 h
      simp only [processCols] at h
      cases hg : df.getSeries? cf.label with
      | none => simp only [hg] at h; cases h
      | some s =>
          simp only [hg] at h
          cases hp : cf.process m s errs with
          | inl e => simp only [hp] at h; cases h
          | inr q =>
              obtain ⟨s2, errs2⟩ := q
              simp only [hp] at h
              obtain ⟨⟨new1, rfl, _⟩, _, _⟩ :=
                (runProcessors_shape m cf.get_processors s errs).2 _ _ hp
              obtain ⟨⟨new2, hke, _⟩, _⟩ :=
                (processCols_shape m rest df (acc.setCol cf.name s2.values)
                  (errs ++ new1)).2 _ _ h
              have hnil : new1 ++ new2 = [] := by
                have hx : errs ++ (new1 ++ new2) = errs ++ [] := by
                  rw [← List.append_assoc, ← hke, List.append_nil]
                exact List.append_cancel_left hx
              have h1 := List.append_eq_nil.mp hnil
              have hp0 : runProcessors m cf.get_processors s [] = .inr (s2, []) := by
                rw [ColumnFormat.process, runProcessors_frame] at hp
                cases hz : runProcessors m cf.get_processors s [] with
                | inl qz => obtain ⟨mz, ez⟩ := qz; rw [hz] at hp; cases hp
                | inr qz =>
                    obtain ⟨sz, ez⟩ := qz
                    rw [hz] at hp
                    have hpz : (sz, errs ++ ez) = (s2, errs ++ new1) := by injection hp
                    have hsz : sz = s2 := congrArg Prod.fst hpz
                    have hez : ez = new1 :=
                      List.append_cancel_left (congrArg Prod.snd hpz)
                    rw [hsz, hez, h1.1]
              have herrs2 : errs ++ new1 = errs := by rw [h1.1, List.append_nil]
              rw [herrs2] at h
              obtain ⟨outs, hlen, hfold, hfacts⟩ :=
                ih (acc.setCol cf.name s2.values) errs df2 h
              refine ⟨s2 :: outs, by simp [hlen], ?_, ?_⟩
              · simp only [List.zip_cons_cons, List.foldl_cons]
                exact hfold
              · intro p hpm
                simp only [List.zip_cons_cons] at hpm
                rcases List.mem_cons.mp hpm with rfl | hpm2
                · exact ⟨s, hg, hp0⟩
                · exact hfacts p hpm2

/-- Folding fresh column assignments appends them in order, keeping
the index. -/
theorem foldl_setCol_cols (ps : List (String × List Value)) :
    ∀ (acc : Df),
    (∀ p ∈ ps, acc.cols.any (fun c => c.1 == p.1) = false) →
    (ps.map Prod.fst).Nodup →
    (ps.foldl (fun d p => d.setCol p.1 p.2) acc).cols = acc.cols ++ ps
    ∧ (ps.foldl (fun d p => d.setCol p.1 p.2) acc).index = acc.index := by
  induction ps with
  | nil => intro acc _ _; exact ⟨by simp, rfl⟩
  | cons p0 rest ih =>
      intro acc hfresh hnd
      simp only [List.foldl_cons]
      have hf0 : acc.cols.any (fun c => c.1 == p0.1) = false := hfresh p0 (by simp)
      have hset : acc.setCol p0.1 p0.2 = { acc with cols := acc.cols ++ [p0] } := by
        rw [Df.setCol, if_neg (by simp [hf0])]
      rw [hset]
      simp only [List.map_cons, List.nodup_cons] at hnd
      have hfresh2 : ∀ p ∈ rest,
          (({ acc with cols := acc.cols ++ [p0] } : Df)).cols.any
            (fun c => c.1 == p.1) = false := by
        intro p hp
        simp only []
        rw [List.any_append]
        simp only [Bool.or_eq_false_iff]
        refine ⟨hfresh p (by simp [hp]), ?_⟩
        simp only [List.any_cons, List.any_nil, Bool.or_false]
        rw [beq_eq_false_iff_ne]
        intro he
        have hmem : p.1 ∈ rest.map Prod.fst := List.mem_map_of_mem Prod.fst hp
        rw [← he] at hmem
        exact hnd.1 hmem
      obtain ⟨hc, hi⟩ := ih { acc with cols := acc.cols ++ [p0] } hfresh2 hnd.2
      rw [hc, hi]
      exact ⟨by simp, rfl⟩

/-- Forward run of the column loop over columns their chains fix:
clean, and the frame is the fold of the (unchanged) assignments. -/
theorem processCols_run_of_fixpoint (m : String → String → Bool)
    (pairs : List (ColumnFormat × Series)) (d1 : Df) :
    ∀ (acc : Df),
    (∀ p ∈ pairs, d1.getSeries? p.1.label = some p.2) →
    (∀ p ∈ pairs, runProcessors m p.1.get_processors p.2 [] = .inr (p.2, [])) →
    processCols m (pairs.map Prod.fst) d1 acc [] =
      .inr (pairs.foldl (fun d p => d.setCol p.1.name p.2.values) acc, []) := by
  induction pairs with
  | nil => intro acc _ _; rfl
  | cons p0 rest ih =>
      intro acc hlook hfix
      have hrun := hfix p0 (by simp)
      simp only [List.map_cons, processCols, List.foldl_cons, hlook p0 (by simp),
        ColumnFormat.process, hrun]
      exact ih (acc.setCol p0.1.name p0.2.values)
        (fun p hp => hlook p (by simp [hp])) (fun p hp => hfix p (by simp [hp]))

/-- Filtering with an all-true row predicate is the identity on frames
whose columns are no longer than the index. -/
theorem filterRows_id (d : Df) (keep : Nat → Bool)
    (hkeep : ∀ L, keep L = true)
    (hwf : ∀ c ∈ d.cols, c.2.length ≤ d.index.length) :
    d.filterRows keep = d := by
  have hidx : d.index.filter keep = d.index :=
    List.filter_eq_self.mpr (fun a _ => hkeep a)
  have hcols : d.cols.map (fun c =>
      (c.1, ((d.index.zip c.2).filter (fun p => keep p.1)).map Prod.snd)) = d.cols := by
    apply map_id_of_mem
    intro c hc
    rw [zip_filter_true_snd d.index c.2 keep hkeep (hwf c hc)]
  rw [Df.filterRows, hidx, hcols]

/-- No additional-columns error when every frame label is expected. -/
theorem check_additional_nil (d : Df) (expected : List String)
    (h : ∀ L ∈ d.labels, L ∈ expected) :
    check_additional_columns d expected = [] := by
  have hfil : d.labels.filter (fun c => !(expected.any (fun e => e == c))) = [] := by
    rw [List.filter_eq_nil_iff]
    intro a ha
    have hm : expected.any (fun e => e == a) = true :=
      List.any_eq_true.mpr ⟨a, h a ha, by simp⟩
    simp [hm]
  simp [check_additional_columns, hfil]

/-- No missing-columns error when every expected label is present. -/
theorem ensure_expected_nil (d : Df) (expected : List String)
    (h : ∀ e ∈ expected, e ∈ d.labels) :
    ensure_expected_columns d expected = [] := by
  have hfil : expected.filter (fun e => !(d.labels.any (fun c => c == e))) = [] := by
    rw [List.filter_eq_nil_iff]
    intro a ha
    have hm : d.labels.any (fun c => c == a) = true :=
      List.any_eq_true.mpr ⟨a, h a ha, by simp⟩
    simp [hm]
  simp [ensure_expected_columns, hfil]

/-- A frame whose labels are exactly the expected labels passes both
structural checks. -/
theorem structuralErrors_nil_of_labels (ff : FileFormat) (d : Df)
    (hlab : d.labels = ff.columns.map ColumnFormat.label) :
    structuralErrors ff d = [] := by
  have h1 : check_additional_columns d (ff.columns.map ColumnFormat.label) = [] :=
    check_additional_nil d _ (fun L hL => by rw [← hlab]; exact hL)
  have h2 : ensure_expected_columns d (ff.columns.map ColumnFormat.label) = [] :=
    ensure_expected_nil d _ (fun e he => by rw [hlab]; exact he)
  simp only [structuralErrors]
  split <;> simp [h1, h2]

/-- Counterexample to C5 as stated: a schema-conformant DATE column
(format `DD/MM/YYYY`) processes cleanly, but its cleaned table holds
ISO dates, which the declared dateformat no longer parses — the second
run reports an error and empties the table, so re-running `process` on
a cleaned table is not error-free in general. -/
theorem C5_counterexample :
    (FileFormat.process_data matchAll ffD dfD).errors = []
    ∧ (FileFormat.process_data matchAll ffD dfD).df = some dfD1
    ∧ (FileFormat.process_data matchAll ffD dfD1).errors ≠ [] := by
  decide

/-- C5 (amended): idempotence holds for the self-stabilising formats:
no repeat column, distinct column names each labelling its own input
column, every column required (not unique) with datatype
INTEGER or STRING and options only on STRING columns (FLOAT is
excluded: `float("nan")` parses, so a clean first run can emit a NaN
that the second run's required check flags).  If the first
run reports no error, it produces a cleaned table on which a second run
reports no error and returns the very same table. -/
theorem C5_idempotent_on_stable_formats (m : String → String → Bool) (ff : FileFormat)
    (df : Df)
    (hrep : ff.options.repeat_last_column = false)
    (hnd : (ff.columns.map ColumnFormat.name).Nodup)
    (hcols : ∀ cf ∈ ff.columns,
        cf.label = cf.name ∧ cf.required = true ∧ cf.unique = false
        ∧ (cf.datatype = .INTEGER ∨ cf.datatype = .STRING)
        ∧ (cf.options ≠ none → cf.datatype = .STRING))
    (hwf : ∀ c ∈ df.cols, c.2.length = df.index.length)
    (h1 : (ff.process_data m df).errors = []) :
    ∃ d1, (ff.process_data m df).df = some d1
      ∧ (ff.process_data m d1).errors = []
      ∧ (ff.process_data m d1).df = some d1 := by
  cases hE : ff.processE m df { total_rows := df.nrows } with
  | inl q =>
      obtain ⟨msg, r'⟩ := q
      simp only [FileFormat.process_data, hE] at h1
      simp at h1
  | inr r =>
      have hdf1 : (ff.process_data m df).df = r.df := by
        simp only [FileFormat.process_data, hE]
      have h1r : r.errors = [] := by
        simpa only [FileFormat.process_data, hE] using h1
      rcases processE_inr_cases m ff df _ r hE with ⟨hne, hr⟩ |
        ⟨df2b, errs3, hstru0, hcp, hfin⟩
      · rw [hr] at h1r
        exact absurd h1r hne
      · rcases hfin with ⟨hnemp, _, hr⟩ | ⟨_, hr⟩
        · rw [hr] at h1r
          exact absurd h1r hnemp
        · rw [hr] at h1r hdf1
          have hE0 : errs3 ++ runValidators ff.options.validators df2b = [] := h1r
          have hv := List.append_eq_nil.mp hE0
          rw [hstru0] at hcp
          rw [hv.1] at hcp
          rw [FileFormat.columnPhase, if_neg (by simp [hrep]),
            show ff.mainColumnFormats = ff.columns from
              by simp [FileFormat.mainColumnFormats, hrep]] at hcp
          cases hpc : processCols m ff.columns df { index := df.index, cols := [] } [] with
          | inl q2 => rw [hpc] at hcp; cases hcp
          | inr q2 =>
              obtain ⟨df2a, errs2⟩ := q2
              rw [hpc] at hcp
              simp only [] at hcp
              rw [if_neg (by simp [hrep])] at hcp
              have hq : (df2a, errs2) = (df2b, ([] : List FileFormatError)) := by
                injection hcp
              have hdfa : df2a = df2b := congrArg Prod.fst hq
              have herrs2 : errs2 = [] := congrArg Prod.snd hq
              rw [hdfa, herrs2] at hpc
              obtain ⟨outs, hlen, hfold, hfacts⟩ :=
                processCols_clean_shape m ff.columns df
                  { index := df.index, cols := [] } [] df2b hpc
              have hfstzip : (ff.columns.zip outs).map Prod.fst = ff.columns :=
                List.map_fst_zip _ _ (Nat.le_of_eq hlen.symm)
              have hpair : ∀ p ∈ ff.columns.zip outs,
                  p.2.name = p.1.name
                  ∧ p.2.items.map Prod.fst = df.index
                  ∧ runProcessors m p.1.get_processors p.2 [] = .inr (p.2, []) := by
                intro p hp
                obtain ⟨s, hgs, hrun⟩ := hfacts p hp
                have hcfm : p.1 ∈ ff.columns := by
                  rw [← hfstzip]
                  exact List.mem_map_of_mem Prod.fst hp
                obtain ⟨hcl, hcreq, hcuniq, hcdt, hcopt⟩ := hcols p.1 hcfm
                rw [Df.getSeries?] at hgs
                cases hfind : df.cols.find? (fun c => c.1 == p.1.label) with
                | none => rw [hfind] at hgs; cases hgs
                | some c =>
                    rw [hfind, Option.map_some'] at hgs
                    have hs := Option.some.inj hgs
                    have hcmem : c ∈ df.cols := List.mem_of_find?_eq_some hfind
                    have hclen : c.2.length = df.index.length := hwf c hcmem
                    have hsfst : s.items.map Prod.fst = df.index := by
                      rw [← hs]
                      exact List.map_fst_zip df.index c.2 (le_of_eq hclen.symm)
                    obtain ⟨_, hname, hfst⟩ :=
                      (runProcessors_shape m p.1.get_processors s []).2 _ _ hrun
                    have hsname : s.name = p.1.name := by
                      rw [← hs]
                      exact hcl
                    refine ⟨hname.trans hsname, ?_,
                      chain_fixpoint m p.1 s p.2 hcreq hcuniq hcdt hcopt hrun⟩
                    rw [hfst]
                    exact hsfst
              have hps := foldl_setCol_cols
                ((ff.columns.zip outs).map (fun p => (p.1.name, p.2.values)))
                { index := df.index, cols := [] }
                (fun p _ => rfl)
                (by
                  rw [List.map_map]
                  rw [show (Prod.fst ∘ (fun (p : ColumnFormat × Series) =>
                      (p.1.name, p.2.values))) = (ColumnFormat.name ∘ Prod.fst) from rfl]
                  rw [← List.map_map, hfstzip]
                  exact hnd)
              have hfold2 : df2b = ((ff.columns.zip outs).map
                  (fun p => (p.1.name, p.2.values))).foldl
                  (fun d p => d.setCol p.1 p.2) { index := df.index, cols := [] } := by
                rw [hfold, List.foldl_map]
              have hcols2b : df2b.cols
                  = (ff.columns.zip outs).map (fun p => (p.1.name, p.2.values)) := by
                rw [hfold2]
                simpa using hps.1
              have hidx2b : df2b.index = df.index := by
                rw [hfold2]
                simpa using hps.2
              have hlen2 : ∀ c ∈ df2b.cols, c.2.length ≤ df2b.index.length := by
                intro c hc
                rw [hcols2b] at hc
                obtain ⟨p, hpm, rfl⟩ := List.mem_map.mp hc
                have hl : p.2.values.length = df.index.length := by
                  have hx := congrArg List.length (hpair p hpm).2.1
                  simpa [Series.values] using hx
                rw [hidx2b]
                exact Nat.le_of_eq hl
              have hkeepE : ∀ L, (!(hasRowError
                  (errs3 ++ runValidators ff.options.validators df2b) L)) = true := by
                intro L
                rw [hE0]
                rfl
              have hfrE : df2b.filterRows (fun L =>
                  !(hasRowError (errs3 ++ runValidators ff.options.validators df2b) L))
                  = df2b :=
                filterRows_id df2b _ hkeepE hlen2
              have hlab2 : df2b.labels = ff.columns.map ColumnFormat.label := by
                rw [Df.labels, hcols2b, List.map_map]
                rw [show (Prod.fst ∘ (fun (p : ColumnFormat × Series) =>
                    (p.1.name, p.2.values))) = (ColumnFormat.name ∘ Prod.fst) from rfl]
                rw [← List.map_map, hfstzip]
                exact (List.map_congr_left (fun cf hcf => (hcols cf hcf).1)).symm
              have hstru2 : structuralErrors ff df2b = [] :=
                structuralErrors_nil_of_labels ff df2b hlab2
              have hndl2 : df2b.labels.Nodup := by
                rw [hlab2, List.map_congr_left (fun cf hcf => (hcols cf hcf).1)]
                exact hnd
              have hlook2 : ∀ p ∈ ff.columns.zip outs,
                  df2b.getSeries? p.1.label = some p.2 := by
                intro p hp
                have hcfm : p.1 ∈ ff.columns := by
                  rw [← hfstzip]
                  exact List.mem_map_of_mem Prod.fst hp
                have hcmem2 : (p.1.name, p.2.values) ∈ df2b.cols := by
                  rw [hcols2b]
                  exact List.mem_map_of_mem _ hp
                have hgs2 : df2b.getSeries? p.1.name
                    = some { name := p.1.name, items := df2b.index.zip p.2.values } :=
                  getSeries?_of_nodup df2b hndl2 (p.1.name, p.2.values) hcmem2
                rw [(hcols p.1 hcfm).1, hgs2]
                have hzip : df2b.index.zip p.2.values = p.2.items := by
                  rw [hidx2b, ← (hpair p hp).2.1]
                  exact zip_map_fst_snd p.2.items
                rw [hzip, ← (hpair p hp).1]
              have hfix2 : ∀ p ∈ ff.columns.zip outs,
                  runProcessors m p.1.get_processors p.2 [] = .inr (p.2, []) :=
                fun p hp => (hpair p hp).2.2
              have hpc2 : processCols m ff.columns df2b
                  { index := df2b.index, cols := [] } [] = .inr (df2b, []) := by
                have hx := processCols_run_of_fixpoint m (ff.columns.zip outs) df2b
                  { index := df2b.index, cols := [] } hlook2 hfix2
                rw [hfstzip] at hx
                rw [hx, hidx2b, ← hfold]
              have hcp2 : ff.columnPhase m df2b [] = .inr (df2b, []) := by
                rw [FileFormat.columnPhase, if_neg (by simp [hrep]),
                  show ff.mainColumnFormats = ff.columns from
                    by simp [FileFormat.mainColumnFormats, hrep],
                  hpc2]
                simp only []
                rw [if_neg (by simp [hrep])]
              have hval : runValidators ff.options.validators df2b = [] := hv.2
              have hfr2 : df2b.filterRows (fun L =>
                  !(hasRowError ([] : List FileFormatError) L)) = df2b :=
                filterRows_id df2b _ (fun L => rfl) hlen2
              have hE2 : ff.processE m df2b { total_rows := df2b.nrows } =
                  .inr { status := .ACCEPTED, filename := none, df := some df2b,
                         errors := [], total_rows := df2b.nrows } := by
                rw [FileFormat.processE]
                simp [hstru2, hcp2, hval, hfr2]
              have hrun2 : ff.process_data m df2b =
                  { status := .ACCEPTED, filename := none, df := some df2b,
                    errors := [], total_rows := df2b.nrows } := by
                simp only [FileFormat.process_data, hE2]
              refine ⟨df2b, ?_, ?_, ?_⟩
              · rw [hdf1]
                rw [hfrE]
              · rw [hrun2]
              · rw [hrun2]

/-- Check that FLOAT is rightly excluded from the amended idempotence:
`float("nan")` parses, so a required FLOAT column over the string
`"nan"` has a clean first run whose NaN output the second run's
required check flags as a missing value. -/
theorem float_nan_defeats_idempotence :
    (FileFormat.process_data matchAll ffF dfF).errors = []
    ∧ (FileFormat.process_data matchAll ffF dfF).df = some dfF1
    ∧ (FileFormat.process_data matchAll ffF dfF1).errors ≠ [] := by
  decide

/-- Check of the repeat-column combiner's NaN handling: empty cells of
a non-required FLOAT repeat column become NaNs in the processed
columns and are *kept* in the combined list cell, with zero errors
(the source's `x is not np.nan` identity test never fires on the
dtype-coerced columns). -/
theorem float_nan_kept_in_repeat_cell :
    (FileFormat.process_data matchAll ffFR dfFR).errors = []
    ∧ (FileFormat.process_data matchAll ffFR dfFR).df =
        some { index := [0], cols := [("f", [.listv [.nan, .nan]])] } := by
  decide

/-- Witness for the amended C5: a single required INTEGER column on a
one-row table holding `"7"`; the first run is clean and the second run
fixes its output. -/
theorem C5_idempotent_on_stable_formats_witness :
    ffA.options.repeat_last_column = false
    ∧ (FileFormat.process_data matchAll ffA dfW).errors = []
    ∧ ∃ d1, (FileFormat.process_data matchAll ffA dfW).df = some d1
        ∧ (FileFormat.process_data matchAll ffA d1).errors = []
        ∧ (FileFormat.process_data matchAll ffA d1).df = some d1 := by
  refine ⟨rfl, by decide, ?_⟩
  exact C5_idempotent_on_stable_formats matchAll ffA dfW rfl (by decide) (by decide)
    (by decide) (by decide)

end Toolkit
